import Mathlib

/-!
Verification of the uidmapshift shifting engine (`src/uidmapshift/shifter.py`).

The Python engine is shallowly embedded below:
* identifiers are `Int` (the code uses unbounded Python ints and range-checks
  against `[0, 2^32)` explicitly);
* Python `range(start, end)` exclusion ranges become `IdRange`;
* `fnmatch.fnmatch` becomes the executable glob matcher `globMatch`;
* POSIX ACLs become ordered lists of tagged entries;
* the filesystem seen by one `shift` call is the metadata record `FsEntry`
  for the entry's path; a whole tree is a function `String → FsEntry`
  together with the `os.walk` output, a list of `WalkTriple`;
* syscalls performed by `shift` are recorded in an `FsOp` trace and printed
  report lines are collected in an `out : List String` field, so that
  "reads no metadata", "performs no ACL operation" and "quiet only changes
  presentation" become statements about the trace and the output list;
* Python exceptions become `Except ShiftErr`.
-/

/-- Upper bound of the identifier space, `MAX_ID = 1 << 32` in the source. -/
def MAX_ID : Int := 2 ^ 32

/-- A Python `range(start, stop)` (step 1) used as an exclusion range. -/
structure IdRange where
  start : Int
  stop : Int
deriving DecidableEq, Repr

/-- Membership in a step-1 Python `range`: `start ≤ x < stop`. -/
def IdRange.contains (r : IdRange) (x : Int) : Bool :=
  decide (r.start ≤ x) && decide (x < r.stop)

/-- The `ShifterOptions` dataclass. -/
structure ShifterOptions where
  shift_owner : Bool := true
  shift_acl : Bool := true
  dry_run : Bool := false
  quiet : Bool := false
deriving DecidableEq, Repr

/-- The `ShifterStats` dataclass. -/
structure ShifterStats where
  shifted_paths : Nat := 0
  shifted_uids : Nat := 0
  shifted_gids : Nat := 0
  shifted_acls : Nat := 0
  shifted_default_acls : Nat := 0
  skipped : Nat := 0
deriving DecidableEq, Repr

/-- Errors raised by the engine: the `ValueError`s of `new_uid` / `new_gid`
(carrying the original and the computed identifier) and the catch-all
`RuntimeError` wrapper of `shift` (carrying the offending path). -/
inductive ShiftErr where
  | invalidNewUid (uid new_uid : Int)
  | invalidNewGid (gid new_gid : Int)
  | failedToShift (path : String)
deriving DecidableEq, Repr

/-- Configuration of the `Shifter` class constructor. -/
structure Shifter where
  uid_offset : Int
  gid_offset : Int
  exclude_uid_ranges : List IdRange := []
  exclude_gid_ranges : List IdRange := []
  exclude_paths : List String := []
deriving DecidableEq, Repr

/-- `Shifter.new_uid`: `-1` if the uid is in an exclusion range (meaning
unchanged), otherwise `uid + uid_offset`, range-checked against `[0, 2^32)`. -/
def Shifter.new_uid (sh : Shifter) (uid : Int) : Except ShiftErr Int :=
  if sh.exclude_uid_ranges.any (fun r => r.contains uid) then
    .ok (-1)
  else
    let new_uid := uid + sh.uid_offset
    if 0 ≤ new_uid ∧ new_uid < MAX_ID then .ok new_uid
    else .error (.invalidNewUid uid new_uid)

/-- `Shifter.new_gid`: `-1` if the gid is in an exclusion range (meaning
unchanged), otherwise `gid + gid_offset`, range-checked against `[0, 2^32)`. -/
def Shifter.new_gid (sh : Shifter) (gid : Int) : Except ShiftErr Int :=
  if sh.exclude_gid_ranges.any (fun r => r.contains gid) then
    .ok (-1)
  else
    let new_gid := gid + sh.gid_offset
    if 0 ≤ new_gid ∧ new_gid < MAX_ID then .ok new_gid
    else .error (.invalidNewGid gid new_gid)

/-!
Glob matching, following `fnmatch.fnmatch` (POSIX case-sensitive form):
`*` matches any sequence, `?` any single character, `[...]` a character
class (leading `!` negates, a first `]` is literal, `a-b` is a range,
an unterminated `[` is a literal bracket).
-/

/-- Match one character against the body of a character class
(regex class semantics: `a-b` ranges, otherwise literal characters). -/
def classMatch (c : Char) : List Char → Bool
  | [] => false
  | [a] => c = a
  | a :: '-' :: b :: rest => (a ≤ c && c ≤ b) || classMatch c rest
  | a :: rest => c = a || classMatch c rest

/-- Scan for the terminating `]` of a character class, returning the class
body and the remainder of the pattern. -/
def findClose : List Char → Option (List Char × List Char)
  | [] => none
  | c :: rest =>
    if c = ']' then some ([], rest)
    else
      match findClose rest with
      | none => none
      | some (cls, r) => some (c :: cls, r)

/-- Class-body scan step: a `]` that is the very first character of the
class body is part of the body, not a terminator. -/
def globScanAux (l : List Char) : Option (List Char × List Char) :=
  match l with
  | ']' :: t =>
    match findClose t with
    | none => none
    | some (cls, r) => some (']' :: cls, r)
  | t => findClose t

/-- Parse a character class right after an opening `[`: an optional leading
`!` negates, a `]` directly after that is part of the class body. Returns
the negation flag, the class body and the rest of the pattern. -/
def globScan (ps : List Char) : Option (Bool × List Char × List Char) :=
  match ps with
  | '!' :: t =>
    match globScanAux t with
    | none => none
    | some (cls, rest) => some (true, cls, rest)
  | t =>
    match globScanAux t with
    | none => none
    | some (cls, rest) => some (false, cls, rest)

theorem findClose_length : ∀ (l cls r : List Char),
    findClose l = some (cls, r) → r.length < l.length := by
  intro l
  induction l with
  | nil => intro cls r h; simp [findClose] at h
  | cons c rest ih =>
    intro cls r h
    unfold findClose at h
    split at h
    · rw [Option.some.injEq, Prod.mk.injEq] at h
      rw [← h.2]
      simp
    · split at h
      · exact absurd h (by simp)
      next cls2 r2 heq =>
        rw [Option.some.injEq, Prod.mk.injEq] at h
        have := ih cls2 r2 heq
        rw [← h.2]
        simp
        omega

theorem globScanAux_length : ∀ (l cls r : List Char),
    globScanAux l = some (cls, r) → r.length < l.length := by
  intro l cls r h
  unfold globScanAux at h
  split at h
  next t =>
    split at h
    · exact absurd h (by simp)
    next cls2 r2 heq =>
      rw [Option.some.injEq, Prod.mk.injEq] at h
      have := findClose_length t cls2 r2 heq
      rw [← h.2]
      simp
      omega
  next => exact findClose_length _ _ _ h

theorem globScan_length : ∀ (ps : List Char) (neg : Bool) (cls rest : List Char),
    globScan ps = some (neg, cls, rest) → rest.length < ps.length := by
  intro ps neg cls rest h
  unfold globScan at h
  split at h
  next t =>
    split at h
    · exact absurd h (by simp)
    next cls2 r2 heq =>
      rw [Option.some.injEq, Prod.mk.injEq, Prod.mk.injEq] at h
      have := globScanAux_length t cls2 r2 heq
      have hr : rest = r2 := h.2.2.symm
      rw [hr]
      simp
      omega
  next =>
    split at h
    · exact absurd h (by simp)
    next cls2 r2 heq =>
      rw [Option.some.injEq, Prod.mk.injEq, Prod.mk.injEq] at h
      have := globScanAux_length ps cls2 r2 heq
      have hr : rest = r2 := h.2.2.symm
      rw [hr]
      exact this

/-- Whole-string glob matching of string `s` against pattern `p`, the
semantics of `fnmatch.translate`: `*` is `.*`, `?` is `.`, `[...]` is a
regex character class, an unterminated `[` is a literal bracket, and the
whole pattern is anchored at both ends. -/
def globMatch (p s : List Char) : Bool :=
  match p, s with
  | [], s => s.isEmpty
  | q :: ps, s =>
    if q = '*' then
      match s with
      | [] => globMatch ps []
      | c :: cs => globMatch ps (c :: cs) || globMatch (q :: ps) cs
    else if q = '?' then
      match s with
      | [] => false
      | _ :: cs => globMatch ps cs
    else if q = '[' then
      match hscan : globScan ps with
      | none =>
        match s with
        | [] => false
        | c :: cs => (q = c) && globMatch ps cs
      | some (neg, cls, rest) =>
        match s with
        | [] => false
        | c :: cs => (classMatch c cls != neg) && globMatch rest cs
    else
      match s with
      | [] => false
      | c :: cs => (q = c) && globMatch ps cs
termination_by (p.length, s.length)
decreasing_by
  · apply Prod.Lex.left; simp
  · apply Prod.Lex.left; simp
  · apply Prod.Lex.right; simp
  · apply Prod.Lex.left; simp
  · apply Prod.Lex.left; simp
  · apply Prod.Lex.left
    have := globScan_length _ _ _ _ hscan
    simp
    omega
  · apply Prod.Lex.left; simp

/-- `fnmatch.fnmatch(name, pat)` on POSIX (no case folding). -/
def fnmatch (name pat : String) : Bool :=
  globMatch pat.data name.data

/-!
The POSIX ACL model and `Shifter.shift_acl`.
-/

/-- ACL entry tag kinds of `posix1e`. -/
inductive AclTag where
  | user_obj
  | user
  | group_obj
  | group
  | other
  | mask
deriving DecidableEq, Repr

/-- One ACL entry: a tag, a qualifier (meaningful for `user` / `group`
tags) and the string form of its permission set. -/
structure AclEntry where
  tag_type : AclTag
  qualifier : Int
  permset : String
deriving DecidableEq, Repr

/-- Change description for a modified named-user ACL entry, as built on
lines 79-81 of `shifter.py`. -/
def uidModLine (pfx : String) (e : AclEntry) (nu : Int) : String :=
  pfx ++ "u:" ++ toString e.qualifier ++ ":" ++ e.permset ++ " -> " ++
    pfx ++ "u:" ++ toString nu ++ ":" ++ e.permset

/-- Change description for a modified named-group ACL entry, as built on
lines 87-89 of `shifter.py`. -/
def gidModLine (pfx : String) (e : AclEntry) (ng : Int) : String :=
  pfx ++ "g:" ++ toString e.qualifier ++ ":" ++ e.permset ++ " -> " ++
    pfx ++ "g:" ++ toString ng ++ ":" ++ e.permset

/-- The entry loop of `Shifter.shift_acl`: remap the qualifier of every
named-user / named-group entry, collecting a change description whenever
the remapper returns something other than the `-1` sentinel. The first
remapping error aborts the whole rewrite. -/
def shiftAclGo (sh : Shifter) (pfx : String) :
    List AclEntry → Except ShiftErr (List AclEntry × List String)
  | [] => .ok ([], [])
  | e :: rest =>
    match e.tag_type with
    | .user =>
      match sh.new_uid e.qualifier with
      | .error err => .error err
      | .ok nu =>
        match shiftAclGo sh pfx rest with
        | .error err => .error err
        | .ok (rest2, mods) =>
          if nu ≠ -1 then
            .ok ({ e with qualifier := nu } :: rest2, uidModLine pfx e nu :: mods)
          else
            .ok (e :: rest2, mods)
    | .group =>
      match sh.new_gid e.qualifier with
      | .error err => .error err
      | .ok ng =>
        match shiftAclGo sh pfx rest with
        | .error err => .error err
        | .ok (rest2, mods) =>
          if ng ≠ -1 then
            .ok ({ e with qualifier := ng } :: rest2, gidModLine pfx e ng :: mods)
          else
            .ok (e :: rest2, mods)
    | _ =>
      match shiftAclGo sh pfx rest with
      | .error err => .error err
      | .ok (rest2, mods) => .ok (e :: rest2, mods)

/-- `Shifter.shift_acl`: rewrite one ACL in place, returning the rewritten
entries and the string descriptions of the entries modified. -/
def Shifter.shift_acl (sh : Shifter) (acl : List AclEntry) (is_default : Bool) :
    Except ShiftErr (List AclEntry × List String) :=
  shiftAclGo sh (if is_default then "d:" else "") acl

/-!
The per-entry filesystem model and `Shifter.shift`.
-/

/-- Filesystem metadata of one path, as observed / mutated by `shift`:
directory-ness and symlink-ness via `lstat`, owner uid/gid via
`os.stat(..., follow_symlinks=False)`, and the access and default ACLs. -/
structure FsEntry where
  is_dir : Bool
  is_symlink : Bool
  st_uid : Int
  st_gid : Int
  acl : List AclEntry
  default_acl : List AclEntry
deriving DecidableEq, Repr

/-- Trace of the filesystem syscalls one `shift` call performs:
`lstatIsDir` is the `path.is_dir(follow_symlinks=False)` probe on line 102,
`lstat` the `os.stat` on line 122, `readAcl` / `readDefaultAcl` the
`posix1e.ACL` loads, and `chown` / `applyAcl` / `applyDefaultAcl` the
commit calls (the `chown` records the raw arguments, `-1` sentinels
included). -/
inductive FsOp where
  | lstatIsDir (path : String)
  | lstat (path : String)
  | readAcl (path : String)
  | readDefaultAcl (path : String)
  | chown (path : String) (uid gid : Int)
  | applyAcl (path : String) (acl : List AclEntry)
  | applyDefaultAcl (path : String) (acl : List AclEntry)
deriving DecidableEq, Repr

/-- Everything one `shift` call produces: its boolean return value, the
updated statistics, the (possibly mutated) metadata of the entry, the
syscall trace and the printed report lines. -/
structure ShiftResult where
  res : Bool
  stats : ShifterStats
  entry : FsEntry
  ops : List FsOp
  out : List String
deriving DecidableEq, Repr

/-- Path-pattern exclusion test, line 104 of `shifter.py`. -/
def Shifter.pathExcluded (sh : Shifter) (path : String) : Bool :=
  sh.exclude_paths.any (fun pat => fnmatch path pat)

/-- Owner remapping step, lines 126-128: when owner shifting is enabled
both identifiers are remapped, otherwise both stay at the `-1` sentinel
initialised on lines 112-113. -/
def ownerPhase (sh : Shifter) (options : ShifterOptions) (uid gid : Int) :
    Except ShiftErr (Int × Int) :=
  if options.shift_owner then
    match sh.new_uid uid with
    | .error err => .error err
    | .ok nu =>
      match sh.new_gid gid with
      | .error err => .error err
      | .ok ng => .ok (nu, ng)
  else
    .ok ((-1 : Int), (-1 : Int))

/-- Result of the ACL loading / rewriting step: the rewritten access and
default ACLs when they were loaded, the change descriptions, and the read
syscalls performed. -/
structure AclPhaseRes where
  acl : Option (List AclEntry)
  modified_acl_entries : List String
  default_acl : Option (List AclEntry)
  modified_default_acl_entries : List String
  ops : List FsOp
deriving DecidableEq, Repr

/-- ACL step, lines 130-139: nothing is attempted when ACL shifting is
disabled or the entry is a symlink; otherwise the access ACL is loaded and
rewritten, and for a directory the default ACL as well. -/
def aclPhase (sh : Shifter) (path : String) (options : ShifterOptions)
    (e : FsEntry) : Except ShiftErr AclPhaseRes :=
  if options.shift_acl && !e.is_symlink then
    match sh.shift_acl e.acl false with
    | .error err => .error err
    | .ok am =>
      if e.is_dir then
        match sh.shift_acl e.default_acl true with
        | .error err => .error err
        | .ok dm =>
          .ok ⟨some am.1, am.2, some dm.1, dm.2,
               [FsOp.readAcl path, FsOp.readDefaultAcl path]⟩
      else
        .ok ⟨some am.1, am.2, none, [], [FsOp.readAcl path]⟩
  else
    .ok ⟨none, [], none, [], []⟩

/-- The report lines printed on lines 158-172 for a changed entry: the
owner line when owner shifting is enabled, then the modified access ACL
entries, then the modified default ACL entries, with the path heading
blanked out after its first use (except in the default-ACL loop, which
never blanks it). -/
def changedLines (path : String) (is_dir : Bool) (uid gid new_uid new_gid : Int)
    (options : ShifterOptions) (mods dmods : List String) : List String :=
  let sfx := if is_dir then "/" else ""
  let show_uid := if new_uid = -1 then uid else new_uid
  let show_gid := if new_gid = -1 then gid else new_gid
  let heading0 := path ++ sfx ++ ":"
  let pad := String.mk (List.replicate heading0.length ' ')
  let ownerLines :=
    if options.shift_owner then
      [heading0 ++ " " ++ toString uid ++ ":" ++ toString gid ++ " -> " ++
        toString show_uid ++ ":" ++ toString show_gid]
    else []
  let heading1 := if options.shift_owner then pad else heading0
  let aclLines :=
    if options.shift_acl then
      match mods with
      | [] => []
      | m :: ms => (heading1 ++ " " ++ m) :: ms.map (fun s => pad ++ " " ++ s)
    else []
  let heading2 := if options.shift_acl && !mods.isEmpty then pad else heading1
  let daclLines :=
    if options.shift_acl then dmods.map (fun s => heading2 ++ " " ++ s) else []
  ownerLines ++ aclLines ++ daclLines

/-- Lines 175-176: chown with the raw new identifiers when either side
changed; a `-1` argument leaves that side unchanged (the `os.chown`
sentinel semantics). -/
def chownStep (path : String) (e : FsEntry) (uid gid new_uid new_gid : Int) :
    FsEntry × List FsOp :=
  if new_uid ≠ -1 ∨ new_gid ≠ -1 then
    ({ e with st_uid := if new_uid = -1 then uid else new_uid,
              st_gid := if new_gid = -1 then gid else new_gid },
     [FsOp.chown path new_uid new_gid])
  else (e, [])

/-- Lines 177-179: commit the rewritten access ACL when it changed. -/
def applyAclStep (path : String) (st : FsEntry × List FsOp) (new_acl : Bool)
    (acl2 : Option (List AclEntry)) : FsEntry × List FsOp :=
  if new_acl then
    match acl2 with
    | some a2 => ({ st.1 with acl := a2 }, st.2 ++ [FsOp.applyAcl path a2])
    | none => st
  else st

/-- Lines 180-182: commit the rewritten default ACL when it changed. -/
def applyDefaultAclStep (path : String) (st : FsEntry × List FsOp)
    (new_default_acl : Bool) (dacl2 : Option (List AclEntry)) :
    FsEntry × List FsOp :=
  if new_default_acl then
    match dacl2 with
    | some d2 =>
      ({ st.1 with default_acl := d2 }, st.2 ++ [FsOp.applyDefaultAcl path d2])
    | none => st
  else st

/-- Commit step, lines 174-182 (reached only outside dry-run mode): the
chown, then the access-ACL commit, then the default-ACL commit. Returns
the mutated entry and the commit syscalls. -/
def commitPhase (path : String) (e : FsEntry) (uid gid new_uid new_gid : Int)
    (a : AclPhaseRes) : FsEntry × List FsOp :=
  applyDefaultAclStep path
    (applyAclStep path (chownStep path e uid gid new_uid new_gid)
      (a.modified_acl_entries.length > 0) a.acl)
    (a.modified_default_acl_entries.length > 0) a.default_acl

/-- Lines 141-184 of `shifter.py` once the remapping phases have
succeeded: classify the entry as unchanged (skip) or changed, update the
statistics, produce the report lines and, outside dry-run mode, commit. -/
def shiftCore (path : String) (e : FsEntry) (options : ShifterOptions)
    (stats : ShifterStats) (new_uid new_gid : Int) (a : AclPhaseRes) :
    ShiftResult :=
  let is_dir := e.is_dir
  let uid := e.st_uid
  let gid := e.st_gid
  let new_acl := a.modified_acl_entries.length > 0
  let new_default_acl := a.modified_default_acl_entries.length > 0
  if new_uid = -1 ∧ new_gid = -1 ∧ ¬new_acl ∧ ¬new_default_acl then
    { res := false
      stats := { stats with skipped := stats.skipped + 1 }
      entry := e
      ops := FsOp.lstat path :: a.ops
      out :=
        if options.quiet then []
        else [path ++ (if is_dir then "/" else "") ++ ": " ++
               toString uid ++ ":" ++ toString gid ++ " skip"] }
  else
    let stats1 : ShifterStats :=
      { stats with
        shifted_paths := stats.shifted_paths + 1
        shifted_uids := stats.shifted_uids + (if new_uid ≠ -1 then 1 else 0)
        shifted_gids := stats.shifted_gids + (if new_gid ≠ -1 then 1 else 0)
        shifted_acls := stats.shifted_acls +
          (if new_acl then a.modified_acl_entries.length else 0)
        shifted_default_acls := stats.shifted_default_acls +
          (if new_default_acl then a.modified_default_acl_entries.length else 0) }
    let out :=
      if options.quiet then []
      else changedLines path is_dir uid gid new_uid new_gid options
             a.modified_acl_entries a.modified_default_acl_entries
    if options.dry_run then
      { res := true, stats := stats1, entry := e,
        ops := FsOp.lstat path :: a.ops, out := out }
    else
      let c := commitPhase path e uid gid new_uid new_gid a
      { res := true, stats := stats1, entry := c.1,
        ops := FsOp.lstat path :: (a.ops ++ c.2), out := out }

/-- Body of the `try` block of `Shifter.shift` (lines 111-184): owner
remap, ACL remap, then classification / commit; the first raised error
aborts the body. -/
def Shifter.shiftInner (sh : Shifter) (path : String) (e : FsEntry)
    (options : ShifterOptions) (stats : ShifterStats) :
    Except ShiftErr ShiftResult :=
  match ownerPhase sh options e.st_uid e.st_gid with
  | .error err => .error err
  | .ok (new_uid, new_gid) =>
    match aclPhase sh path options e with
    | .error err => .error err
    | .ok a => .ok (shiftCore path e options stats new_uid new_gid a)

/-- `Shifter.shift`: the full per-entry state machine. The directory probe
(line 102) happens before the exclusion check; an excluded entry is counted
as skipped; any error inside the `try` block is wrapped into the
catch-all per-path failure (lines 185-186). -/
def Shifter.shift (sh : Shifter) (path : String) (e : FsEntry)
    (options : ShifterOptions) (stats : ShifterStats) :
    Except ShiftErr ShiftResult :=
  if sh.pathExcluded path then
    .ok { res := false
          stats := { stats with skipped := stats.skipped + 1 }
          entry := e
          ops := [FsOp.lstatIsDir path]
          out :=
            if options.quiet then []
            else [path ++ (if e.is_dir then "/" else "") ++ ": skip"] }
  else
    match sh.shiftInner path e options stats with
    | .ok r => .ok { r with ops := FsOp.lstatIsDir path :: r.ops }
    | .error _ => .error (.failedToShift path)

/-!
The tree walker `Shifter.run`.
-/

/-- One `os.walk` triple: a directory together with the names of its
subdirectories and files. -/
structure WalkTriple where
  root : String
  dirs : List String
  files : List String
deriving DecidableEq, Repr

/-- `str(Path(root) / name)`. -/
def pathJoin (root name : String) : String :=
  root ++ "/" ++ name

/-- The paths `run` hands to `shift`, in order: for every walk triple,
first the subdirectories then the files — except that whenever the *input
path string* equals the literal `"root"` the loop body is skipped
entirely (the `"root" == path` guard on line 194). -/
def walkPaths (path : String) : List WalkTriple → List String
  | [] => []
  | t :: rest =>
    (if "root" = path then []
     else t.dirs.map (pathJoin t.root) ++ t.files.map (pathJoin t.root)) ++
    walkPaths path rest

/-- The shifting loop of `run`: process each path in order, threading the
statistics and the filesystem state (a commit changes the metadata the
filesystem holds at that path). -/
def Shifter.runGo (sh : Shifter) (paths : List String)
    (options : ShifterOptions) (fs : String → FsEntry) (stats : ShifterStats) :
    Except ShiftErr (ShifterStats × (String → FsEntry)) :=
  match paths with
  | [] => .ok (stats, fs)
  | p :: rest =>
    match sh.shift p (fs p) options stats with
    | .error err => .error err
    | .ok r =>
      sh.runGo rest options (fun q => if q = p then r.entry else fs q) r.stats

/-- `Shifter.run`: fresh statistics, then the full walk. The walk structure
(`os.walk` output) and the per-path metadata are inputs of the model. -/
def Shifter.run (sh : Shifter) (path : String) (walk : List WalkTriple)
    (fs : String → FsEntry) (options : ShifterOptions) :
    Except ShiftErr (ShifterStats × (String → FsEntry)) :=
  sh.runGo (walkPaths path walk) options fs {}

/-!
Claim theorems.
-/

/-- C1: for every identifier and offset, an identifier inside an exclusion
range makes the remapper (`new_uid` / `new_gid`) return the "unchanged"
sentinel and never fail; otherwise the remapper returns `id + offset` when
that sum lies in `[0, 2^32)` and fails with an out-of-range error carrying
the original and the computed identifier when it does not. -/
theorem C1_remapper_contract (sh : Shifter) (id : Int) :
    (sh.exclude_uid_ranges.any (fun r => r.contains id) = true →
      sh.new_uid id = .ok (-1)) ∧
    (sh.exclude_uid_ranges.any (fun r => r.contains id) = false →
      (0 ≤ id + sh.uid_offset ∧ id + sh.uid_offset < MAX_ID →
        sh.new_uid id = .ok (id + sh.uid_offset)) ∧
      (¬(0 ≤ id + sh.uid_offset ∧ id + sh.uid_offset < MAX_ID) →
        sh.new_uid id = .error (.invalidNewUid id (id + sh.uid_offset)))) ∧
    (sh.exclude_gid_ranges.any (fun r => r.contains id) = true →
      sh.new_gid id = .ok (-1)) ∧
    (sh.exclude_gid_ranges.any (fun r => r.contains id) = false →
      (0 ≤ id + sh.gid_offset ∧ id + sh.gid_offset < MAX_ID →
        sh.new_gid id = .ok (id + sh.gid_offset)) ∧
      (¬(0 ≤ id + sh.gid_offset ∧ id + sh.gid_offset < MAX_ID) →
        sh.new_gid id = .error (.invalidNewGid id (id + sh.gid_offset)))) := by
  refine ⟨?_, ?_, ?_, ?_⟩ <;> intro hexc
  · simp [Shifter.new_uid, hexc]
  · constructor <;> intro hrange <;> simp [Shifter.new_uid, hexc, hrange]
  · simp [Shifter.new_gid, hexc]
  · constructor <;> intro hrange <;> simp [Shifter.new_gid, hexc, hrange]

/-- Witness for C1 at the shifter with offsets `100000`, uid exclusion
range `0-999` and gid exclusion range `0-1999`: an excluded uid is
unchanged, a non-excluded uid is shifted, an overflowing uid fails with
the original and computed values, and symmetrically for gids. -/
theorem C1_remapper_contract_witness :
    (Shifter.mk 100000 100000 [⟨0, 1000⟩] [⟨0, 2000⟩] []).new_uid 500 = .ok (-1) ∧
    (Shifter.mk 100000 100000 [⟨0, 1000⟩] [⟨0, 2000⟩] []).new_uid 2000 = .ok 102000 ∧
    (Shifter.mk 100000 100000 [⟨0, 1000⟩] [⟨0, 2000⟩] []).new_uid 4294900000 =
      .error (.invalidNewUid 4294900000 4295000000) ∧
    (Shifter.mk 100000 100000 [⟨0, 1000⟩] [⟨0, 2000⟩] []).new_gid 1500 = .ok (-1) ∧
    (Shifter.mk 100000 100000 [⟨0, 1000⟩] [⟨0, 2000⟩] []).new_gid 3000 = .ok 103000 ∧
    (Shifter.mk 100000 100000 [⟨0, 1000⟩] [⟨0, 2000⟩] []).new_gid (-200000) =
      .error (.invalidNewGid (-200000) (-100000)) := by
  refine ⟨?_, ?_, ?_, ?_, ?_, ?_⟩
  · exact (C1_remapper_contract _ 500).1 (by decide)
  · exact ((C1_remapper_contract _ 2000).2.1 (by decide)).1 (by decide)
  · exact ((C1_remapper_contract _ 4294900000).2.1 (by decide)).2 (by decide)
  · exact (C1_remapper_contract _ 1500).2.2.1 (by decide)
  · exact ((C1_remapper_contract _ 3000).2.2.2 (by decide)).1 (by decide)
  · exact ((C1_remapper_contract _ (-200000)).2.2.2 (by decide)).2 (by decide)

/-- For any walk, the `"root" == path` guard empties the list of paths the
walk loop hands to the entry shifter. -/
theorem walkPaths_root (walk : List WalkTriple) : walkPaths "root" walk = [] := by
  induction walk with
  | nil => rfl
  | cons t rest ih => simp [walkPaths, ih]

/-- C9: invoking `run` with the input path string equal to the literal
`"root"` hands no entry at all to the entry shifter (the list of shifted
paths is empty) and returns all-zero statistics with the filesystem
untouched, whatever the walk contains. -/
theorem C9_root_guard (sh : Shifter) (walk : List WalkTriple)
    (fs : String → FsEntry) (options : ShifterOptions) :
    walkPaths "root" walk = [] ∧
    sh.run "root" walk fs options = .ok (⟨0, 0, 0, 0, 0, 0⟩, fs) := by
  refine ⟨walkPaths_root walk, ?_⟩
  unfold Shifter.run
  rw [walkPaths_root walk]
  rfl

/-!
Inversion helpers for `shift` and generic facts shared by the claim
theorems.
-/

/-- Inversion of a successful `shift` call: either the path is excluded
and the result is the skip record of lines 104-109, or the path is not
excluded, both remapping phases succeeded and the result is `shiftCore`
with the directory probe prepended to the trace. -/
theorem shift_ok_inv (sh : Shifter) (path : String) (e : FsEntry)
    (opts : ShifterOptions) (stats : ShifterStats) (r : ShiftResult)
    (h : sh.shift path e opts stats = .ok r) :
    (sh.pathExcluded path = true ∧
      r = { res := false
            stats := { stats with skipped := stats.skipped + 1 }
            entry := e
            ops := [FsOp.lstatIsDir path]
            out := if opts.quiet then []
                   else [path ++ (if e.is_dir then "/" else "") ++ ": skip"] }) ∨
    (sh.pathExcluded path = false ∧
      ∃ nu ng a, ownerPhase sh opts e.st_uid e.st_gid = .ok (nu, ng) ∧
        aclPhase sh path opts e = .ok a ∧
        r = { shiftCore path e opts stats nu ng a with
              ops := FsOp.lstatIsDir path ::
                       (shiftCore path e opts stats nu ng a).ops }) := by
  unfold Shifter.shift at h
  split at h
  next hex =>
    left
    refine ⟨hex, ?_⟩
    rw [Except.ok.injEq] at h
    exact h.symm
  next hex =>
    right
    refine ⟨by simpa using hex, ?_⟩
    unfold Shifter.shiftInner at h
    cases hop : ownerPhase sh opts e.st_uid e.st_gid with
    | error err => rw [hop] at h; exact absurd h (by simp)
    | ok p =>
      obtain ⟨nu, ng⟩ := p
      rw [hop] at h
      cases hac : aclPhase sh path opts e with
      | error err => rw [hac] at h; exact absurd h (by simp)
      | ok a =>
        rw [hac] at h
        rw [Except.ok.injEq] at h
        exact ⟨nu, ng, a, rfl, rfl, h.symm⟩

/-- `shiftCore` increments exactly one of the path / skip counters, by
one, and its boolean result tells which. -/
theorem shiftCore_partition (path : String) (e : FsEntry)
    (opts : ShifterOptions) (stats : ShifterStats) (nu ng : Int)
    (a : AclPhaseRes) :
    ((shiftCore path e opts stats nu ng a).res = true ∧
      (shiftCore path e opts stats nu ng a).stats.shifted_paths =
        stats.shifted_paths + 1 ∧
      (shiftCore path e opts stats nu ng a).stats.skipped = stats.skipped) ∨
    ((shiftCore path e opts stats nu ng a).res = false ∧
      (shiftCore path e opts stats nu ng a).stats.shifted_paths =
        stats.shifted_paths ∧
      (shiftCore path e opts stats nu ng a).stats.skipped =
        stats.skipped + 1) := by
  simp only [shiftCore]
  split
  · right; simp
  · split
    · left; simp
    · left; simp

/-- Every successful `shift` call increments exactly one of the
`shifted_paths` / `skipped` counters, by one, and returns `True` exactly
when `shifted_paths` was the one incremented. -/
theorem shift_ok_partition (sh : Shifter) (path : String) (e : FsEntry)
    (opts : ShifterOptions) (stats : ShifterStats) (r : ShiftResult)
    (h : sh.shift path e opts stats = .ok r) :
    (r.res = true ∧ r.stats.shifted_paths = stats.shifted_paths + 1 ∧
      r.stats.skipped = stats.skipped) ∨
    (r.res = false ∧ r.stats.shifted_paths = stats.shifted_paths ∧
      r.stats.skipped = stats.skipped + 1) := by
  rcases shift_ok_inv sh path e opts stats r h with ⟨_, hr⟩ | ⟨_, nu, ng, a, _, _, hr⟩
  · right; rw [hr]; exact ⟨rfl, rfl, rfl⟩
  · have := shiftCore_partition path e opts stats nu ng a
    rw [hr]
    simpa using this

/-- Counting invariant of the walking loop: a successful `runGo` adds the
number of processed paths to `shifted_paths + skipped`. -/
theorem runGo_count (sh : Shifter) (opts : ShifterOptions) :
    ∀ (paths : List String) (fs : String → FsEntry) (stats : ShifterStats)
      (s : ShifterStats) (g : String → FsEntry),
      sh.runGo paths opts fs stats = .ok (s, g) →
      s.shifted_paths + s.skipped =
        stats.shifted_paths + stats.skipped + paths.length := by
  intro paths
  induction paths with
  | nil =>
    intro fs stats s g h
    unfold Shifter.runGo at h
    rw [Except.ok.injEq, Prod.mk.injEq] at h
    rw [← h.1]
    simp
  | cons p rest ih =>
    intro fs stats s g h
    unfold Shifter.runGo at h
    cases hs : sh.shift p (fs p) opts stats with
    | error err => rw [hs] at h; exact absurd h (by simp)
    | ok r =>
      rw [hs] at h
      have hcount := ih _ _ _ _ h
      have hpart := shift_ok_partition sh p (fs p) opts stats r hs
      rcases hpart with ⟨_, h1, h2⟩ | ⟨_, h1, h2⟩ <;> simp [List.length_cons] <;> omega

/-- C10: every normally-returning `shift` call increments exactly one of
`shifted_paths` and `skipped`, by exactly one, returning `True` iff
`shifted_paths` was the one incremented; consequently an error-free run
ends with `shifted_paths + skipped` equal to the number of entries the
walk handed to the entry shifter. -/
theorem C10_stats_partition (sh : Shifter) :
    (∀ (path : String) (e : FsEntry) (opts : ShifterOptions)
       (stats : ShifterStats) (r : ShiftResult),
       sh.shift path e opts stats = .ok r →
       ((r.res = true ∧ r.stats.shifted_paths = stats.shifted_paths + 1 ∧
          r.stats.skipped = stats.skipped) ∨
        (r.res = false ∧ r.stats.shifted_paths = stats.shifted_paths ∧
          r.stats.skipped = stats.skipped + 1))) ∧
    (∀ (path : String) (walk : List WalkTriple) (fs : String → FsEntry)
       (opts : ShifterOptions) (s : ShifterStats) (g : String → FsEntry),
       sh.run path walk fs opts = .ok (s, g) →
       s.shifted_paths + s.skipped = (walkPaths path walk).length) := by
  constructor
  · intro path e opts stats r h
    exact shift_ok_partition sh path e opts stats r h
  · intro path walk fs opts s g h
    have := runGo_count sh opts (walkPaths path walk) fs {} s g h
    simpa using this

/-- Shifter used by the concrete witnesses: offsets `100000:100000`, no
exclusions. -/
def shW10 : Shifter := ⟨100000, 100000, [], [], []⟩

/-- A plain file owned `1000:1000` with no ACL entries. -/
def eW10 : FsEntry := ⟨false, false, 1000, 1000, [], []⟩

/-- A one-entry filesystem where every path carries `eW10`. -/
def fsW10 : String → FsEntry := fun _ => eW10

/-- Filesystem state after the witness run shifted `./f`. -/
def gW10 : String → FsEntry := fun q =>
  if q = "./f" then ⟨false, false, 101000, 101000, [], []⟩ else fsW10 q

/-- Witness for C10: a concrete successful `shift` returns `True` having
incremented `shifted_paths` and left `skipped` alone, and a concrete
one-file run ends with `shifted_paths + skipped` equal to the number of
walked entries. -/
theorem C10_stats_partition_witness :
    ((shW10.shift "f" eW10 {} {}).map (fun r => (r.res, r.stats.shifted_paths,
        r.stats.skipped)) = .ok (true, 1, 0)) ∧
    (shW10.run "." [⟨".", [], ["f"]⟩] fsW10 {} = .ok (⟨1, 1, 1, 0, 0, 0⟩, gW10)) ∧
    (1 : Nat) + 0 = (walkPaths "." [⟨".", [], ["f"]⟩]).length := by
  refine ⟨by rfl, by rfl, ?_⟩
  have h := (C10_stats_partition shW10).2 "." [⟨".", [], ["f"]⟩] fsW10 {}
    ⟨1, 1, 1, 0, 0, 0⟩ gW10 (by rfl)
  simpa using h

/-- Shifter of end-to-end scenario 1: uid offset `100000`, gid offset `0`,
no exclusions. -/
def shC2 : Shifter := ⟨100000, 0, [], [], []⟩

/-- A plain file owned `1000:1000`, no ACL entries. -/
def eC2 : FsEntry := ⟨false, false, 1000, 1000, [], []⟩

/-- C2 counterexample: for the file owned `1000:1000` shifted with offsets
`100000:0`, no exclusions and default options, the code reports
`shifted_gids = 1`, not `0`: `new_gid` returns `1000 + 0 = 1000`, which is
not the `-1` "unchanged" sentinel, so the group counts as shifted even
though its value did not change. -/
theorem C2_zero_gid_offset_counterexample :
    ((shC2.shift "f" eC2 {} {}).map fun r => r.stats.shifted_gids) = .ok 1 ∧
    ((shC2.shift "f" eC2 {} {}).map fun r => r.stats.shifted_gids) ≠ .ok 0 := by
  have h1 : ((shC2.shift "f" eC2 {} {}).map fun r => r.stats.shifted_gids) =
      .ok 1 := rfl
  exact ⟨h1, by rw [h1]; simp⟩

/-- C2 amended: for a single non-excluded file owned `1000:1000`, shifted
with uid offset `100000`, gid offset `0` and owner shifting enabled, the
owner becomes `101000:1000` and the statistics are `shifted_paths = 1`,
`shifted_uids = 1` and `shifted_gids = 1` — a zero group offset still
counts as a group shift, because `new_gid` returns `gid + 0` rather than
the unchanged sentinel. -/
theorem C2_single_file_scenario :
    (shC2.shift "f" eC2 {} {}).map
        (fun r => (r.res, r.entry.st_uid, r.entry.st_gid, r.stats)) =
      .ok (true, 101000, 1000, ⟨1, 1, 1, 0, 0, 0⟩) := rfl

/-- Shifter with the path exclusion pattern of scenario 4. -/
def shC3 : Shifter := ⟨100000, 100000, [], [], ["*/cache/*"]⟩

/-- C3 counterexample: an entry whose path matches an exclusion pattern is
skipped, but its syscall trace is not empty — the directory probe
(`path.is_dir(follow_symlinks=False)`, an `lstat`, line 102) runs before
the exclusion check, so filesystem metadata *is* read for an excluded
entry. -/
theorem C3_excluded_probe_counterexample :
    shC3.pathExcluded "x/cache/y" = true ∧
    ((shC3.shift "x/cache/y" eC2 {} {}).map fun r => r.ops) =
      .ok [FsOp.lstatIsDir "x/cache/y"] ∧
    ((shC3.shift "x/cache/y" eC2 {} {}).map fun r => r.ops) ≠ .ok [] := by
  have hex : shC3.pathExcluded "x/cache/y" = true := by
    simp [Shifter.pathExcluded, shC3, fnmatch, globMatch]
  have h1 : ((shC3.shift "x/cache/y" eC2 {} {}).map fun r => r.ops) =
      .ok [FsOp.lstatIsDir "x/cache/y"] := by
    simp [Shifter.shift, hex, Except.map]
  exact ⟨hex, h1, by rw [h1]; simp⟩

/-- C3 amended: for every entry whose path matches an exclusion pattern,
`shift` records a skip (increments `skipped` by one), returns `False`,
performs no mutation, and reads no ownership or ACL metadata — the entire
syscall trace is the single directory probe that line 102 performs before
the exclusion check. -/
theorem C3_excluded_skip (sh : Shifter) (path : String) (e : FsEntry)
    (opts : ShifterOptions) (stats : ShifterStats)
    (hex : sh.pathExcluded path = true) :
    sh.shift path e opts stats =
      .ok { res := false
            stats := { stats with skipped := stats.skipped + 1 }
            entry := e
            ops := [FsOp.lstatIsDir path]
            out := if opts.quiet then []
                   else [path ++ (if e.is_dir then "/" else "") ++ ": skip"] } := by
  simp [Shifter.shift, hex]

/-- Witness for the amended C3 at a concrete excluded path. -/
theorem C3_excluded_skip_witness :
    shC3.pathExcluded "x/cache/y" = true ∧
    shC3.shift "x/cache/y" eC2 {} {} =
      .ok { res := false
            stats := { ShifterStats.mk 0 0 0 0 0 0 with skipped := 0 + 1 }
            entry := eC2
            ops := [FsOp.lstatIsDir "x/cache/y"]
            out := if ShifterOptions.quiet {} then []
                   else ["x/cache/y" ++ (if eC2.is_dir then "/" else "") ++
                          ": skip"] } :=
  ⟨by simp [Shifter.pathExcluded, shC3, fnmatch, globMatch],
   C3_excluded_skip shC3 "x/cache/y" eC2 {} {}
     (by simp [Shifter.pathExcluded, shC3, fnmatch, globMatch])⟩

/-- Projection of a shift result to everything except the printed report
lines: return value, statistics, entry metadata and syscall trace. -/
def ShiftResult.core (r : ShiftResult) :
    Bool × ShifterStats × FsEntry × List FsOp :=
  (r.res, r.stats, r.entry, r.ops)

/-- The owner phase never reads the quiet flag. -/
theorem ownerPhase_quiet (sh : Shifter) (opts : ShifterOptions) (q : Bool)
    (uid gid : Int) :
    ownerPhase sh { opts with quiet := q } uid gid =
      ownerPhase sh opts uid gid := by
  simp [ownerPhase]

/-- The ACL phase never reads the quiet flag. -/
theorem aclPhase_quiet (sh : Shifter) (path : String) (opts : ShifterOptions)
    (q : Bool) (e : FsEntry) :
    aclPhase sh path { opts with quiet := q } e = aclPhase sh path opts e := by
  simp [aclPhase]

/-- The quiet flag changes only the `out` component of `shiftCore`. -/
theorem shiftCore_quiet (path : String) (e : FsEntry) (opts : ShifterOptions)
    (q1 q2 : Bool) (stats : ShifterStats) (nu ng : Int) (a : AclPhaseRes) :
    (shiftCore path e { opts with quiet := q1 } stats nu ng a).core =
      (shiftCore path e { opts with quiet := q2 } stats nu ng a).core := by
  simp only [shiftCore, ShiftResult.core]
  split
  · rfl
  · dsimp only
    split
    · rfl
    · rfl

/-- C8: for every entry, configuration and filesystem state, running
`shift` with `quiet = true` and with `quiet = false` yields the same
return value, the same statistics, the same entry mutation and the same
syscall trace — the flag only suppresses the printed report lines. -/
theorem C8_quiet_noninterference (sh : Shifter) (path : String) (e : FsEntry)
    (opts : ShifterOptions) (stats : ShifterStats) :
    (sh.shift path e { opts with quiet := true } stats).map ShiftResult.core =
      (sh.shift path e { opts with quiet := false } stats).map
        ShiftResult.core := by
  unfold Shifter.shift
  split
  · simp [Except.map, ShiftResult.core]
  · unfold Shifter.shiftInner
    rw [ownerPhase_quiet sh opts true e.st_uid e.st_gid,
        ownerPhase_quiet sh opts false e.st_uid e.st_gid,
        aclPhase_quiet sh path opts true e, aclPhase_quiet sh path opts false e]
    cases hop : ownerPhase sh opts e.st_uid e.st_gid with
    | error err => rfl
    | ok p =>
      obtain ⟨nu, ng⟩ := p
      cases hac : aclPhase sh path opts e with
      | error err => rfl
      | ok a =>
        have hc := shiftCore_quiet path e opts true false stats nu ng a
        simp only [ShiftResult.core, Prod.mk.injEq] at hc
        simp only [Except.map, ShiftResult.core, Except.ok.injEq, Prod.mk.injEq]
        exact ⟨hc.1, hc.2.1, hc.2.2.1, by rw [hc.2.2.2]⟩

/-- Pointwise relation between an ACL entry and its rewritten form: the
tag and the permission set are preserved, and an entry that is neither
named-user nor named-group is completely untouched. -/
def AclEntryRel (x y : AclEntry) : Prop :=
  y.tag_type = x.tag_type ∧ y.permset = x.permset ∧
  ((x.tag_type ≠ AclTag.user ∧ x.tag_type ≠ AclTag.group) → y = x)

/-- The entry loop of `shift_acl` relates every input entry to its output
entry in order: only qualifiers of named-user/named-group entries can
change. -/
theorem shiftAclGo_frame (sh : Shifter) (pfx : String) :
    ∀ (acl acl2 : List AclEntry) (mods : List String),
      shiftAclGo sh pfx acl = .ok (acl2, mods) →
      List.Forall₂ AclEntryRel acl acl2 := by
  intro acl
  induction acl with
  | nil =>
    intro acl2 mods h
    unfold shiftAclGo at h
    rw [Except.ok.injEq, Prod.mk.injEq] at h
    rw [← h.1]
    exact List.Forall₂.nil
  | cons e rest ih =>
    intro acl2 mods h
    unfold shiftAclGo at h
    split at h
    next htag =>
      split at h
      · exact absurd h (by simp)
      next nu hnu =>
        split at h
        · exact absurd h (by simp)
        next rest2 m hrest =>
          split at h <;>
          · rw [Except.ok.injEq, Prod.mk.injEq] at h
            rw [← h.1]
            exact List.Forall₂.cons
              ⟨rfl, rfl, fun hne => absurd htag hne.1⟩ (ih rest2 m hrest)
    next htag =>
      split at h
      · exact absurd h (by simp)
      next ng hng =>
        split at h
        · exact absurd h (by simp)
        next rest2 m hrest =>
          split at h <;>
          · rw [Except.ok.injEq, Prod.mk.injEq] at h
            rw [← h.1]
            exact List.Forall₂.cons
              ⟨rfl, rfl, fun hne => absurd htag hne.2⟩ (ih rest2 m hrest)
    next htag1 htag2 =>
      split at h
      · exact absurd h (by simp)
      next rest2 m hrest =>
        rw [Except.ok.injEq, Prod.mk.injEq] at h
        rw [← h.1]
        exact List.Forall₂.cons ⟨rfl, rfl, fun _ => rfl⟩ (ih rest2 m hrest)

/-- C5: for every ACL and every offset/exclusion combination, a successful
`shift_acl` preserves the number and order of entries and modifies only
the qualifier field of named-user and named-group entries — entries tagged
user-object, group-object, other or mask are returned untouched, and no
entry's tag or permission set is ever modified. -/
theorem C5_acl_rewriter_frame (sh : Shifter) (acl : List AclEntry)
    (is_default : Bool) (acl2 : List AclEntry) (mods : List String)
    (h : sh.shift_acl acl is_default = .ok (acl2, mods)) :
    acl2.length = acl.length ∧ List.Forall₂ AclEntryRel acl acl2 := by
  have hf := shiftAclGo_frame sh (if is_default then "d:" else "") acl acl2 mods h
  exact ⟨(List.Forall₂.length_eq hf).symm, hf⟩

/-- A five-entry access ACL exercising every tag kind. -/
def aclW5 : List AclEntry :=
  [⟨AclTag.user_obj, 0, "rwx"⟩, ⟨AclTag.user, 1000, "rw-"⟩,
   ⟨AclTag.group_obj, 0, "r-x"⟩, ⟨AclTag.group, 1000, "r--"⟩,
   ⟨AclTag.mask, 0, "rwx"⟩]

/-- The rewrite of `aclW5` under offsets `100000:100000`. -/
def aclW5res : List AclEntry :=
  [⟨AclTag.user_obj, 0, "rwx"⟩, ⟨AclTag.user, 101000, "rw-"⟩,
   ⟨AclTag.group_obj, 0, "r-x"⟩, ⟨AclTag.group, 101000, "r--"⟩,
   ⟨AclTag.mask, 0, "rwx"⟩]

/-- Witness for C5 at a concrete five-entry ACL: the rewrite succeeds,
its length and order are preserved and only the two named entries have a
new qualifier. -/
theorem C5_acl_rewriter_frame_witness :
    shW10.shift_acl aclW5 false =
      .ok (aclW5res, ["u:1000:rw- -> u:101000:rw-",
                      "g:1000:r-- -> g:101000:r--"]) ∧
    (aclW5res.length = aclW5.length ∧
      List.Forall₂ AclEntryRel aclW5 aclW5res) :=
  ⟨rfl, C5_acl_rewriter_frame shW10 aclW5 false aclW5res
    ["u:1000:rw- -> u:101000:rw-", "g:1000:r-- -> g:101000:r--"] rfl⟩

/-- Projection of a shift result to its return value and statistics. -/
def ShiftResult.outcome (r : ShiftResult) : Bool × ShifterStats :=
  (r.res, r.stats)

/-- The owner phase never reads the dry-run flag. -/
theorem ownerPhase_dry (sh : Shifter) (opts : ShifterOptions) (d : Bool)
    (uid gid : Int) :
    ownerPhase sh { opts with dry_run := d } uid gid =
      ownerPhase sh opts uid gid := by
  simp [ownerPhase]

/-- The ACL phase never reads the dry-run flag. -/
theorem aclPhase_dry (sh : Shifter) (path : String) (opts : ShifterOptions)
    (d : Bool) (e : FsEntry) :
    aclPhase sh path { opts with dry_run := d } e = aclPhase sh path opts e := by
  simp [aclPhase]

/-- The dry-run flag changes neither the return value nor the statistics
of `shiftCore` — it only gates the commit. -/
theorem shiftCore_dry (path : String) (e : FsEntry) (opts : ShifterOptions)
    (d1 d2 : Bool) (stats : ShifterStats) (nu ng : Int) (a : AclPhaseRes) :
    (shiftCore path e { opts with dry_run := d1 } stats nu ng a).outcome =
      (shiftCore path e { opts with dry_run := d2 } stats nu ng a).outcome := by
  simp only [shiftCore, ShiftResult.outcome]
  cases d1 <;> cases d2 <;> (split <;> rfl)

/-- Per entry, a dry-run `shift` and a real `shift` from the same state
agree on the return value and the statistics (and on the error, if any). -/
theorem shift_dry (sh : Shifter) (path : String) (e : FsEntry)
    (opts : ShifterOptions) (stats : ShifterStats) :
    (sh.shift path e { opts with dry_run := true } stats).map
        ShiftResult.outcome =
      (sh.shift path e { opts with dry_run := false } stats).map
        ShiftResult.outcome := by
  unfold Shifter.shift
  split
  · simp [Except.map, ShiftResult.outcome]
  · unfold Shifter.shiftInner
    rw [ownerPhase_dry sh opts true e.st_uid e.st_gid,
        ownerPhase_dry sh opts false e.st_uid e.st_gid,
        aclPhase_dry sh path opts true e, aclPhase_dry sh path opts false e]
    cases hop : ownerPhase sh opts e.st_uid e.st_gid with
    | error err => rfl
    | ok p =>
      obtain ⟨nu, ng⟩ := p
      cases hac : aclPhase sh path opts e with
      | error err => rfl
      | ok a =>
        have hc := shiftCore_dry path e opts true false stats nu ng a
        simp only [ShiftResult.outcome, Prod.mk.injEq] at hc
        simp only [Except.map, ShiftResult.outcome, Except.ok.injEq,
          Prod.mk.injEq]
        exact hc

/-- Walking the same duplicate-free path list in dry-run mode and in real
mode from filesystems that agree on those paths produces the same
statistics (or the same error). -/
theorem runGo_dry (sh : Shifter) (opts : ShifterOptions) :
    ∀ (paths : List String) (fs fsr : String → FsEntry) (stats : ShifterStats),
      paths.Nodup →
      (∀ p ∈ paths, fsr p = fs p) →
      (sh.runGo paths { opts with dry_run := true } fs stats).map Prod.fst =
        (sh.runGo paths { opts with dry_run := false } fsr stats).map
          Prod.fst := by
  intro paths
  induction paths with
  | nil => intro fs fsr stats hnd hag; rfl
  | cons p rest ih =>
    intro fs fsr stats hnd hag
    unfold Shifter.runGo
    have hfp : fsr p = fs p := hag p (by simp)
    rw [hfp]
    have hsd := shift_dry sh p (fs p) opts stats
    cases hd : sh.shift p (fs p) { opts with dry_run := true } stats with
    | error err =>
      rw [hd] at hsd
      cases hr : sh.shift p (fs p) { opts with dry_run := false } stats with
      | error err2 =>
        rw [hr] at hsd
        simp only [Except.map] at hsd
        rw [Except.error.injEq] at hsd
        rw [hsd]
      | ok r2 => rw [hr] at hsd; exact absurd hsd (by simp [Except.map])
    | ok r =>
      rw [hd] at hsd
      cases hr : sh.shift p (fs p) { opts with dry_run := false } stats with
      | error err2 => rw [hr] at hsd; exact absurd hsd (by simp [Except.map])
      | ok r2 =>
        rw [hr] at hsd
        simp only [Except.map, Except.ok.injEq, ShiftResult.outcome,
          Prod.mk.injEq] at hsd
        dsimp only
        rw [← hsd.2]
        apply ih
        · exact (List.nodup_cons.mp hnd).2
        · intro q hq
          have hqp : q ≠ p := by
            intro hqp
            exact (List.nodup_cons.mp hnd).1 (hqp ▸ hq)
          simp only [hqp, if_false]
          exact hag q (List.mem_cons_of_mem p hq)

/-- C4: over the same tree, with the same configuration and the same
initial filesystem state, a dry run and a real run produce statistics
records that are equal field for field (the dry-run flag only suppresses
the commit step, never any computation or counting). The walked paths of
a real directory tree are pairwise distinct, which is the stated
hypothesis. -/
theorem C4_dry_run_equivalence (sh : Shifter) (path : String)
    (walk : List WalkTriple) (fs : String → FsEntry) (opts : ShifterOptions)
    (hnd : (walkPaths path walk).Nodup) :
    (sh.run path walk fs { opts with dry_run := true }).map Prod.fst =
      (sh.run path walk fs { opts with dry_run := false }).map Prod.fst := by
  unfold Shifter.run
  exact runGo_dry sh opts (walkPaths path walk) fs fs {} hnd (fun p _ => rfl)

/-- Witness for C4 on a concrete one-directory, one-file walk. -/
theorem C4_dry_run_equivalence_witness :
    (walkPaths "." [⟨".", ["d"], ["f"]⟩]).Nodup ∧
    (shW10.run "." [⟨".", ["d"], ["f"]⟩] fsW10
        { ShifterOptions.mk true true false false with dry_run := true }).map
        Prod.fst =
      (shW10.run "." [⟨".", ["d"], ["f"]⟩] fsW10
        { ShifterOptions.mk true true false false with dry_run := false }).map
        Prod.fst := by
  constructor
  · simp [walkPaths, pathJoin]
  · exact C4_dry_run_equivalence shW10 "." [⟨".", ["d"], ["f"]⟩] fsW10
      (ShifterOptions.mk true true false false)
      (by simp [walkPaths, pathJoin])

/-- Whether a syscall touches a default ACL. -/
def FsOp.isDefaultAclOp : FsOp → Bool
  | .readDefaultAcl _ => true
  | .applyDefaultAcl _ _ => true
  | _ => false

/-- Whether a syscall touches any ACL (access or default). -/
def FsOp.isAclOp : FsOp → Bool
  | .readAcl _ => true
  | .applyAcl _ _ => true
  | .readDefaultAcl _ => true
  | .applyDefaultAcl _ _ => true
  | _ => false

/-- For a symlink the ACL phase attempts nothing at all. -/
theorem aclPhase_symlink (sh : Shifter) (path : String) (opts : ShifterOptions)
    (e : FsEntry) (hsym : e.is_symlink = true) :
    aclPhase sh path opts e = .ok ⟨none, [], none, [], []⟩ := by
  simp [aclPhase, hsym]

/-- For an entry that is not a directory a successful ACL phase has no
default-ACL piece: no default rewrite result, no default change
descriptions, and no default-ACL syscall. -/
theorem aclPhase_nondir (sh : Shifter) (path : String) (opts : ShifterOptions)
    (e : FsEntry) (a : AclPhaseRes) (hdir : e.is_dir = false)
    (ha : aclPhase sh path opts e = .ok a) :
    a.modified_default_acl_entries = [] ∧
    ∀ op ∈ a.ops, op.isDefaultAclOp = false := by
  unfold aclPhase at ha
  split at ha
  · split at ha
    · exact absurd ha (by simp)
    next am ham =>
      rw [hdir] at ha
      simp only [Bool.false_eq_true, if_false] at ha
      rw [Except.ok.injEq] at ha
      rw [← ha]
      refine ⟨rfl, ?_⟩
      intro op hop
      simp only [List.mem_singleton] at hop
      rw [hop]
      rfl
  · rw [Except.ok.injEq] at ha
    rw [← ha]
    exact ⟨rfl, by intro op hop; simp at hop⟩

/-- The chown step only ever emits the chown syscall. -/
theorem chownStep_ops (path : String) (e : FsEntry) (uid gid nu ng : Int) :
    ∀ op ∈ (chownStep path e uid gid nu ng).2, op = FsOp.chown path nu ng := by
  intro op hop
  unfold chownStep at hop
  split at hop
  · simpa using hop
  · simp at hop

/-- The chown step never touches the ACL fields of the entry. -/
theorem chownStep_acl (path : String) (e : FsEntry) (uid gid nu ng : Int) :
    (chownStep path e uid gid nu ng).1.acl = e.acl ∧
    (chownStep path e uid gid nu ng).1.default_acl = e.default_acl := by
  unfold chownStep
  split <;> exact ⟨rfl, rfl⟩

/-- The owner fields the chown step commits. -/
theorem chownStep_owner (path : String) (e : FsEntry) (uid gid nu ng : Int) :
    (chownStep path e uid gid nu ng).1.st_uid =
      (if nu ≠ -1 ∨ ng ≠ -1 then (if nu = -1 then uid else nu)
       else e.st_uid) ∧
    (chownStep path e uid gid nu ng).1.st_gid =
      (if nu ≠ -1 ∨ ng ≠ -1 then (if ng = -1 then gid else ng)
       else e.st_gid) := by
  unfold chownStep
  split <;> simp_all

/-- The access-ACL commit step preserves owner fields and the default ACL
and only appends an access-ACL write to the trace. -/
theorem applyAclStep_frame (path : String) (st : FsEntry × List FsOp)
    (b : Bool) (o : Option (List AclEntry)) :
    (applyAclStep path st b o).1.st_uid = st.1.st_uid ∧
    (applyAclStep path st b o).1.st_gid = st.1.st_gid ∧
    (applyAclStep path st b o).1.default_acl = st.1.default_acl ∧
    ∀ op ∈ (applyAclStep path st b o).2,
      op ∈ st.2 ∨ ∃ l, op = FsOp.applyAcl path l := by
  unfold applyAclStep
  split
  · split
    next a2 =>
      refine ⟨rfl, rfl, rfl, ?_⟩
      intro op hop
      rcases List.mem_append.mp hop with h1 | h1
      · exact Or.inl h1
      · exact Or.inr ⟨a2, by simpa using h1⟩
    · exact ⟨rfl, rfl, rfl, fun op hop => Or.inl hop⟩
  · exact ⟨rfl, rfl, rfl, fun op hop => Or.inl hop⟩

/-- The ACL commit step with nothing to commit is the identity. -/
theorem applyAclStep_false (path : String) (st : FsEntry × List FsOp)
    (o : Option (List AclEntry)) : applyAclStep path st false o = st := rfl

/-- The default-ACL commit step preserves owner fields and the access ACL
and only appends a default-ACL write to the trace. -/
theorem applyDefaultAclStep_frame (path : String) (st : FsEntry × List FsOp)
    (b : Bool) (o : Option (List AclEntry)) :
    (applyDefaultAclStep path st b o).1.st_uid = st.1.st_uid ∧
    (applyDefaultAclStep path st b o).1.st_gid = st.1.st_gid ∧
    (applyDefaultAclStep path st b o).1.acl = st.1.acl ∧
    ∀ op ∈ (applyDefaultAclStep path st b o).2,
      op ∈ st.2 ∨ ∃ l, op = FsOp.applyDefaultAcl path l := by
  unfold applyDefaultAclStep
  split
  · split
    next d2 =>
      refine ⟨rfl, rfl, rfl, ?_⟩
      intro op hop
      rcases List.mem_append.mp hop with h1 | h1
      · exact Or.inl h1
      · exact Or.inr ⟨d2, by simpa using h1⟩
    · exact ⟨rfl, rfl, rfl, fun op hop => Or.inl hop⟩
  · exact ⟨rfl, rfl, rfl, fun op hop => Or.inl hop⟩

/-- The default-ACL commit step with nothing to commit is the identity. -/
theorem applyDefaultAclStep_false (path : String) (st : FsEntry × List FsOp)
    (o : Option (List AclEntry)) : applyDefaultAclStep path st false o = st :=
  rfl

/-- When no default-ACL rewrite happened, the commit emits only the chown
and possibly the access-ACL write. -/
theorem commitPhase_ops_nodefault (path : String) (e : FsEntry)
    (uid gid nu ng : Int) (a : AclPhaseRes)
    (hd : a.modified_default_acl_entries = []) :
    ∀ op ∈ (commitPhase path e uid gid nu ng a).2,
      op = FsOp.chown path nu ng ∨ ∃ l, op = FsOp.applyAcl path l := by
  intro op hop
  unfold commitPhase at hop
  rw [hd] at hop
  simp only [List.length_nil, applyDefaultAclStep, gt_iff_lt, Nat.lt_irrefl,
    decide_False, Bool.false_eq_true, if_false] at hop
  rcases (applyAclStep_frame path (chownStep path e uid gid nu ng) _ a.acl).2.2.2
      op hop with h1 | h1
  · exact Or.inl (chownStep_ops path e uid gid nu ng op h1)
  · exact Or.inr h1

/-- When no ACL rewrite happened at all, the commit is just the chown. -/
theorem commitPhase_ops_empty (path : String) (e : FsEntry)
    (uid gid nu ng : Int) (a : AclPhaseRes)
    (ha : a.modified_acl_entries = [])
    (hd : a.modified_default_acl_entries = []) :
    ∀ op ∈ (commitPhase path e uid gid nu ng a).2,
      op = FsOp.chown path nu ng := by
  intro op hop
  unfold commitPhase at hop
  rw [hd, ha] at hop
  simp only [List.length_nil, applyDefaultAclStep, applyAclStep, gt_iff_lt,
    Nat.lt_irrefl, decide_False, Bool.false_eq_true, if_false] at hop
  exact chownStep_ops path e uid gid nu ng op hop

/-- A successful `shift` of a symlink performs no ACL syscall at all:
the ACL phase is skipped (line 131) and nothing ACL-related is committed. -/
theorem shift_symlink_no_aclops (sh : Shifter) (path : String) (e : FsEntry)
    (opts : ShifterOptions) (stats : ShifterStats) (r : ShiftResult)
    (hsym : e.is_symlink = true) (h : sh.shift path e opts stats = .ok r) :
    ∀ op ∈ r.ops, op.isAclOp = false := by
  rcases shift_ok_inv sh path e opts stats r h with ⟨_, hr⟩ |
    ⟨_, nu, ng, a, hop, ha, hr⟩
  · rw [hr]
    intro op hop2
    simp only [List.mem_singleton] at hop2
    rw [hop2]
    rfl
  · rw [aclPhase_symlink sh path opts e hsym] at ha
    rw [Except.ok.injEq] at ha
    rw [hr]
    intro op hop2
    simp only [List.mem_cons] at hop2
    rcases hop2 with h1 | h1
    · rw [h1]; rfl
    · revert h1
      simp only [shiftCore, ← ha]
      split
      · intro h1
        simp only [List.mem_cons, List.not_mem_nil, or_false] at h1
        rw [h1]; rfl
      · split
        · intro h1
          simp only [List.mem_cons, List.not_mem_nil, or_false] at h1
          rw [h1]; rfl
        · intro h1
          simp only [List.mem_cons, List.nil_append] at h1
          rcases h1 with h2 | h2
          · rw [h2]; rfl
          · have := commitPhase_ops_empty path e e.st_uid e.st_gid nu ng
              ⟨none, [], none, [], []⟩ rfl rfl op h2
            rw [this]; rfl

/-- A successful `shift` of a non-directory performs no default-ACL
syscall: default ACLs are loaded and committed only for directories. -/
theorem shift_nondir_no_defaultaclops (sh : Shifter) (path : String)
    (e : FsEntry) (opts : ShifterOptions) (stats : ShifterStats)
    (r : ShiftResult) (hdir : e.is_dir = false)
    (h : sh.shift path e opts stats = .ok r) :
    ∀ op ∈ r.ops, op.isDefaultAclOp = false := by
  rcases shift_ok_inv sh path e opts stats r h with ⟨_, hr⟩ |
    ⟨_, nu, ng, a, hop, ha, hr⟩
  · rw [hr]
    intro op hop2
    simp only [List.mem_singleton] at hop2
    rw [hop2]
    rfl
  · have hnd := aclPhase_nondir sh path opts e a hdir ha
    rw [hr]
    intro op hop2
    simp only [List.mem_cons] at hop2
    rcases hop2 with h1 | h1
    · rw [h1]; rfl
    · revert h1
      simp only [shiftCore]
      split
      · intro h1
        simp only [List.mem_cons] at h1
        rcases h1 with h2 | h2
        · rw [h2]; rfl
        · exact hnd.2 op h2
      · split
        · intro h1
          simp only [List.mem_cons] at h1
          rcases h1 with h2 | h2
          · rw [h2]; rfl
          · exact hnd.2 op h2
        · intro h1
          simp only [List.mem_cons, List.mem_append] at h1
          rcases h1 with h2 | h2 | h2
          · rw [h2]; rfl
          · exact hnd.2 op h2
          · rcases commitPhase_ops_nodefault path e e.st_uid e.st_gid nu ng a
                hnd.1 op h2 with h3 | ⟨l, h3⟩
            · rw [h3]; rfl
            · rw [h3]; rfl

/-- A successful, non-excluded `shift` with owner shifting enabled runs
both remappers successfully, and outside dry-run mode commits exactly the
ownership they dictate (a `-1` sentinel leaves that side unchanged). -/
theorem shift_owner_result (sh : Shifter) (path : String) (e : FsEntry)
    (opts : ShifterOptions) (stats : ShifterStats) (r : ShiftResult)
    (hnx : sh.pathExcluded path = false)
    (hown : opts.shift_owner = true)
    (hdry : opts.dry_run = false)
    (h : sh.shift path e opts stats = .ok r) :
    ∃ nu ng, sh.new_uid e.st_uid = .ok nu ∧ sh.new_gid e.st_gid = .ok ng ∧
      r.entry.st_uid = (if nu = -1 then e.st_uid else nu) ∧
      r.entry.st_gid = (if ng = -1 then e.st_gid else ng) := by
  rcases shift_ok_inv sh path e opts stats r h with ⟨hex, _⟩ |
    ⟨_, nu, ng, a, hop, ha, hr⟩
  · rw [hex] at hnx; exact absurd hnx (by simp)
  · unfold ownerPhase at hop
    rw [hown] at hop
    simp only [if_true] at hop
    split at hop
    · exact absurd hop (by simp)
    next nu2 hnu =>
      split at hop
      · exact absurd hop (by simp)
      next ng2 hng =>
        rw [Except.ok.injEq, Prod.mk.injEq] at hop
        rw [hop.1] at hnu
        rw [hop.2] at hng
        refine ⟨nu, ng, hnu, hng, ?_⟩
        have hent : r.entry = (shiftCore path e opts stats nu ng a).entry := by
          rw [hr]
        rw [hent]
        simp only [shiftCore]
        split
        next hskip =>
          simp [hskip.1, hskip.2.1]
        · rw [hdry]
          simp only [Bool.false_eq_true, if_false]
          have h1 := applyDefaultAclStep_frame path
            (applyAclStep path (chownStep path e e.st_uid e.st_gid nu ng)
              (decide (a.modified_acl_entries.length > 0)) a.acl)
            (decide (a.modified_default_acl_entries.length > 0)) a.default_acl
          have h2 := applyAclStep_frame path
            (chownStep path e e.st_uid e.st_gid nu ng)
            (decide (a.modified_acl_entries.length > 0)) a.acl
          have h3 := chownStep_owner path e e.st_uid e.st_gid nu ng
          unfold commitPhase
          rw [h1.1, h1.2.1, h2.1, h2.2.1, h3.1, h3.2]
          by_cases hnu1 : nu = -1
          · by_cases hng1 : ng = -1
            · simp [hnu1, hng1]
            · simp [hnu1, hng1]
          · simp [hnu1]

/-- C6: for every non-excluded entry processed successfully with ACL
shifting enabled, a default ACL is loaded or committed only when the entry
is a directory; an entry that is itself a symlink receives no ACL syscall
at all, while still receiving the ownership remap when owner shifting is
enabled (committed outside dry-run mode). -/
theorem C6_acl_scoping (sh : Shifter) (path : String) (e : FsEntry)
    (opts : ShifterOptions) (stats : ShifterStats) (r : ShiftResult)
    (hacl : opts.shift_acl = true)
    (hnx : sh.pathExcluded path = false)
    (h : sh.shift path e opts stats = .ok r) :
    (e.is_dir = false → ∀ op ∈ r.ops, op.isDefaultAclOp = false) ∧
    (e.is_symlink = true →
      (∀ op ∈ r.ops, op.isAclOp = false) ∧
      (opts.shift_owner = true → opts.dry_run = false →
        ∃ nu ng, sh.new_uid e.st_uid = .ok nu ∧
          sh.new_gid e.st_gid = .ok ng ∧
          r.entry.st_uid = (if nu = -1 then e.st_uid else nu) ∧
          r.entry.st_gid = (if ng = -1 then e.st_gid else ng))) :=
  ⟨fun hdir => shift_nondir_no_defaultaclops sh path e opts stats r hdir h,
   fun hsym =>
     ⟨shift_symlink_no_aclops sh path e opts stats r hsym h,
      fun hown hdry =>
        shift_owner_result sh path e opts stats r hnx hown hdry h⟩⟩

/-- The symlink entry of the C6 witness, owned `1000:1000`. -/
def eW6 : FsEntry := ⟨false, true, 1000, 1000, [], []⟩

/-- Result of shifting the witness symlink with offsets `100000:100000`. -/
def rW6 : ShiftResult :=
  { res := true
    stats := ⟨1, 1, 1, 0, 0, 0⟩
    entry := ⟨false, true, 101000, 101000, [], []⟩
    ops := [FsOp.lstatIsDir "l", FsOp.lstat "l", FsOp.chown "l" 101000 101000]
    out := ["l: 1000:1000 -> 101000:101000"] }

/-- Witness for C6: shifting a concrete symlink performs no ACL syscall,
no default-ACL syscall, and commits the remapped owner. -/
theorem C6_acl_scoping_witness :
    shW10.shift "l" eW6 {} {} = .ok rW6 ∧
    (∀ op ∈ rW6.ops, op.isDefaultAclOp = false) ∧
    (∀ op ∈ rW6.ops, op.isAclOp = false) ∧
    (∃ nu ng, shW10.new_uid eW6.st_uid = .ok nu ∧
      shW10.new_gid eW6.st_gid = .ok ng ∧
      rW6.entry.st_uid = (if nu = -1 then eW6.st_uid else nu) ∧
      rW6.entry.st_gid = (if ng = -1 then eW6.st_gid else ng)) := by
  have h := C6_acl_scoping shW10 "l" eW6 {} {} rW6 rfl rfl rfl
  exact ⟨rfl, h.1 rfl, (h.2 rfl).1, (h.2 rfl).2 rfl rfl⟩

/-!
Helper lemmas for the round-trip claim.
-/

/-- With no exclusion ranges, a successful `new_uid` is exactly
`uid + offset`, range-checked. -/
theorem new_uid_empty (uo go : Int) (u v : Int)
    (h : (Shifter.mk uo go [] [] []).new_uid u = .ok v) :
    v = u + uo ∧ 0 ≤ v ∧ v < MAX_ID := by
  unfold Shifter.new_uid at h
  simp only [List.any_nil, Bool.false_eq_true, if_false] at h
  split at h
  next hrange =>
    rw [Except.ok.injEq] at h
    exact ⟨h.symm, h ▸ hrange⟩
  · exact absurd h (by simp)

/-- With no exclusion ranges, a successful `new_gid` is exactly
`gid + offset`, range-checked. -/
theorem new_gid_empty (uo go : Int) (g v : Int)
    (h : (Shifter.mk uo go [] [] []).new_gid g = .ok v) :
    v = g + go ∧ 0 ≤ v ∧ v < MAX_ID := by
  unfold Shifter.new_gid at h
  simp only [List.any_nil, Bool.false_eq_true, if_false] at h
  split at h
  next hrange =>
    rw [Except.ok.injEq] at h
    exact ⟨h.symm, h ▸ hrange⟩
  · exact absurd h (by simp)

/-- A rewrite that reports no modification returns the ACL unchanged. -/
theorem shiftAclGo_mods_nil (sh : Shifter) (pfx : String) :
    ∀ (acl acl1 : List AclEntry),
      shiftAclGo sh pfx acl = .ok (acl1, []) → acl1 = acl := by
  intro acl
  induction acl with
  | nil =>
    intro acl1 h
    unfold shiftAclGo at h
    rw [Except.ok.injEq, Prod.mk.injEq] at h
    exact h.1.symm
  | cons e rest ih =>
    intro acl1 h
    unfold shiftAclGo at h
    split at h
    next htag =>
      split at h
      · exact absurd h (by simp)
      next nu hnu =>
        split at h
        · exact absurd h (by simp)
        next rest2 m hrest =>
          split at h
          · rw [Except.ok.injEq, Prod.mk.injEq] at h
            exact absurd h.2.symm (by simp)
          · rw [Except.ok.injEq, Prod.mk.injEq] at h
            rw [h.2] at hrest
            rw [← h.1, ih rest2 hrest]
    next htag =>
      split at h
      · exact absurd h (by simp)
      next ng hng =>
        split at h
        · exact absurd h (by simp)
        next rest2 m hrest =>
          split at h
          · rw [Except.ok.injEq, Prod.mk.injEq] at h
            exact absurd h.2.symm (by simp)
          · rw [Except.ok.injEq, Prod.mk.injEq] at h
            rw [h.2] at hrest
            rw [← h.1, ih rest2 hrest]
    next htag1 htag2 =>
      split at h
      · exact absurd h (by simp)
      next rest2 m hrest =>
        rw [Except.ok.injEq, Prod.mk.injEq] at h
        rw [h.2] at hrest
        rw [← h.1, ih rest2 hrest]

/-- The chown step preserves directory-ness and symlink-ness. -/
theorem chownStep_kind (path : String) (e : FsEntry) (uid gid nu ng : Int) :
    (chownStep path e uid gid nu ng).1.is_dir = e.is_dir ∧
    (chownStep path e uid gid nu ng).1.is_symlink = e.is_symlink := by
  unfold chownStep
  split <;> exact ⟨rfl, rfl⟩

/-- The access-ACL commit step preserves directory-ness and symlink-ness. -/
theorem applyAclStep_kind (path : String) (st : FsEntry × List FsOp)
    (b : Bool) (o : Option (List AclEntry)) :
    (applyAclStep path st b o).1.is_dir = st.1.is_dir ∧
    (applyAclStep path st b o).1.is_symlink = st.1.is_symlink := by
  unfold applyAclStep
  split
  · split <;> exact ⟨rfl, rfl⟩
  · exact ⟨rfl, rfl⟩

/-- The default-ACL commit step preserves directory-ness and
symlink-ness. -/
theorem applyDefaultAclStep_kind (path : String) (st : FsEntry × List FsOp)
    (b : Bool) (o : Option (List AclEntry)) :
    (applyDefaultAclStep path st b o).1.is_dir = st.1.is_dir ∧
    (applyDefaultAclStep path st b o).1.is_symlink = st.1.is_symlink := by
  unfold applyDefaultAclStep
  split
  · split <;> exact ⟨rfl, rfl⟩
  · exact ⟨rfl, rfl⟩

/-- A successful `shift` never changes whether the entry is a directory or
a symlink. -/
theorem shift_preserves_kind (sh : Shifter) (path : String) (e : FsEntry)
    (opts : ShifterOptions) (stats : ShifterStats) (r : ShiftResult)
    (h : sh.shift path e opts stats = .ok r) :
    r.entry.is_dir = e.is_dir ∧ r.entry.is_symlink = e.is_symlink := by
  rcases shift_ok_inv sh path e opts stats r h with ⟨_, hr⟩ |
    ⟨_, nu, ng, a, hop, ha, hr⟩
  · rw [hr]; exact ⟨rfl, rfl⟩
  · have hent : r.entry = (shiftCore path e opts stats nu ng a).entry := by
      rw [hr]
    rw [hent]
    simp only [shiftCore]
    split
    · exact ⟨rfl, rfl⟩
    · split
      · exact ⟨rfl, rfl⟩
      · unfold commitPhase
        have h1 := applyDefaultAclStep_kind path
          (applyAclStep path (chownStep path e e.st_uid e.st_gid nu ng)
            (decide (a.modified_acl_entries.length > 0)) a.acl)
          (decide (a.modified_default_acl_entries.length > 0)) a.default_acl
        have h2 := applyAclStep_kind path
          (chownStep path e e.st_uid e.st_gid nu ng)
          (decide (a.modified_acl_entries.length > 0)) a.acl
        have h3 := chownStep_kind path e e.st_uid e.st_gid nu ng
        rw [h1.1, h1.2, h2.1, h2.2, h3.1, h3.2]
        exact ⟨rfl, rfl⟩

/-- A successful, non-excluded `shift` with owner shifting disabled never
changes the owner fields. -/
theorem shift_noowner_result (sh : Shifter) (path : String) (e : FsEntry)
    (opts : ShifterOptions) (stats : ShifterStats) (r : ShiftResult)
    (hnx : sh.pathExcluded path = false)
    (hown : opts.shift_owner = false)
    (h : sh.shift path e opts stats = .ok r) :
    r.entry.st_uid = e.st_uid ∧ r.entry.st_gid = e.st_gid := by
  rcases shift_ok_inv sh path e opts stats r h with ⟨hex, _⟩ |
    ⟨_, nu, ng, a, hop, ha, hr⟩
  · rw [hex] at hnx; exact absurd hnx (by simp)
  · unfold ownerPhase at hop
    rw [hown] at hop
    simp only [Bool.false_eq_true, if_false, Except.ok.injEq, Prod.mk.injEq] at hop
    have hent : r.entry = (shiftCore path e opts stats nu ng a).entry := by
      rw [hr]
    rw [hent]
    simp only [shiftCore]
    split
    · exact ⟨rfl, rfl⟩
    · split
      · exact ⟨rfl, rfl⟩
      · unfold commitPhase
        have h1 := applyDefaultAclStep_frame path
          (applyAclStep path (chownStep path e e.st_uid e.st_gid nu ng)
            (decide (a.modified_acl_entries.length > 0)) a.acl)
          (decide (a.modified_default_acl_entries.length > 0)) a.default_acl
        have h2 := applyAclStep_frame path
          (chownStep path e e.st_uid e.st_gid nu ng)
          (decide (a.modified_acl_entries.length > 0)) a.acl
        have h3 := chownStep_owner path e e.st_uid e.st_gid nu ng
        rw [h1.1, h1.2.1, h2.1, h2.2.1, h3.1, h3.2]
        rw [← hop.1, ← hop.2]
        simp

/-- Access-ACL commit with something to commit stores the rewritten ACL. -/
theorem applyAclStep_true_some (path : String) (st : FsEntry × List FsOp)
    (l : List AclEntry) :
    (applyAclStep path st true (some l)).1.acl = l := rfl

/-- Default-ACL commit with something to commit stores the rewritten
default ACL. -/
theorem applyDefaultAclStep_true_some (path : String)
    (st : FsEntry × List FsOp) (l : List AclEntry) :
    (applyDefaultAclStep path st true (some l)).1.default_acl = l := rfl

/-- Rewriting an ACL with offsets `uo:go` and no exclusions, then
rewriting the result with offsets `-uo:-go`, restores the original
entries exactly (whatever the prefixes). -/
theorem shiftAclGo_roundtrip (uo go : Int) (pfx1 pfx2 : String) :
    ∀ (acl acl1 acl2 : List AclEntry) (m1 m2 : List String),
      shiftAclGo (Shifter.mk uo go [] [] []) pfx1 acl = .ok (acl1, m1) →
      shiftAclGo (Shifter.mk (-uo) (-go) [] [] []) pfx2 acl1 = .ok (acl2, m2) →
      acl2 = acl := by
  intro acl
  induction acl with
  | nil =>
    intro acl1 acl2 m1 m2 h1 h2
    unfold shiftAclGo at h1
    rw [Except.ok.injEq, Prod.mk.injEq] at h1
    rw [← h1.1] at h2
    unfold shiftAclGo at h2
    rw [Except.ok.injEq, Prod.mk.injEq] at h2
    exact h2.1.symm
  | cons e rest ih =>
    intro acl1 acl2 m1 m2 h1 h2
    obtain ⟨tag, q, perm⟩ := e
    cases tag with
    | user =>
      simp only [shiftAclGo] at h1
      split at h1
      · exact absurd h1 (by simp)
      next nu hnu =>
        split at h1
        · exact absurd h1 (by simp)
        next rest1 mm1 hrest1 =>
          have hb := new_uid_empty uo go q nu hnu
          rw [if_pos (show nu ≠ -1 by omega)] at h1
          rw [Except.ok.injEq, Prod.mk.injEq] at h1
          rw [← h1.1] at h2
          simp only [shiftAclGo] at h2
          split at h2
          · exact absurd h2 (by simp)
          next w hw =>
            split at h2
            · exact absurd h2 (by simp)
            next rest2 mm2 hrest2 =>
              have hb2 := new_uid_empty (-uo) (-go) nu w hw
              rw [if_pos (show w ≠ -1 by omega)] at h2
              rw [Except.ok.injEq, Prod.mk.injEq] at h2
              rw [← h2.1]
              have hwq : w = q := by omega
              rw [hwq, ih rest1 rest2 mm1 mm2 hrest1 hrest2]
    | group =>
      simp only [shiftAclGo] at h1
      split at h1
      · exact absurd h1 (by simp)
      next ng hng =>
        split at h1
        · exact absurd h1 (by simp)
        next rest1 mm1 hrest1 =>
          have hb := new_gid_empty uo go q ng hng
          rw [if_pos (show ng ≠ -1 by omega)] at h1
          rw [Except.ok.injEq, Prod.mk.injEq] at h1
          rw [← h1.1] at h2
          simp only [shiftAclGo] at h2
          split at h2
          · exact absurd h2 (by simp)
          next w hw =>
            split at h2
            · exact absurd h2 (by simp)
            next rest2 mm2 hrest2 =>
              have hb2 := new_gid_empty (-uo) (-go) ng w hw
              rw [if_pos (show w ≠ -1 by omega)] at h2
              rw [Except.ok.injEq, Prod.mk.injEq] at h2
              rw [← h2.1]
              have hwq : w = q := by omega
              rw [hwq, ih rest1 rest2 mm1 mm2 hrest1 hrest2]
    | user_obj =>
      simp only [shiftAclGo] at h1
      split at h1
      · exact absurd h1 (by simp)
      next rest1 mm1 hrest1 =>
        rw [Except.ok.injEq, Prod.mk.injEq] at h1
        rw [← h1.1] at h2
        simp only [shiftAclGo] at h2
        split at h2
        · exact absurd h2 (by simp)
        next rest2 mm2 hrest2 =>
          rw [Except.ok.injEq, Prod.mk.injEq] at h2
          rw [← h2.1, ih rest1 rest2 mm1 mm2 hrest1 hrest2]
    | group_obj =>
      simp only [shiftAclGo] at h1
      split at h1
      · exact absurd h1 (by simp)
      next rest1 mm1 hrest1 =>
        rw [Except.ok.injEq, Prod.mk.injEq] at h1
        rw [← h1.1] at h2
        simp only [shiftAclGo] at h2
        split at h2
        · exact absurd h2 (by simp)
        next rest2 mm2 hrest2 =>
          rw [Except.ok.injEq, Prod.mk.injEq] at h2
          rw [← h2.1, ih rest1 rest2 mm1 mm2 hrest1 hrest2]
    | other =>
      simp only [shiftAclGo] at h1
      split at h1
      · exact absurd h1 (by simp)
      next rest1 mm1 hrest1 =>
        rw [Except.ok.injEq, Prod.mk.injEq] at h1
        rw [← h1.1] at h2
        simp only [shiftAclGo] at h2
        split at h2
        · exact absurd h2 (by simp)
        next rest2 mm2 hrest2 =>
          rw [Except.ok.injEq, Prod.mk.injEq] at h2
          rw [← h2.1, ih rest1 rest2 mm1 mm2 hrest1 hrest2]
    | mask =>
      simp only [shiftAclGo] at h1
      split at h1
      · exact absurd h1 (by simp)
      next rest1 mm1 hrest1 =>
        rw [Except.ok.injEq, Prod.mk.injEq] at h1
        rw [← h1.1] at h2
        simp only [shiftAclGo] at h2
        split at h2
        · exact absurd h2 (by simp)
        next rest2 mm2 hrest2 =>
          rw [Except.ok.injEq, Prod.mk.injEq] at h2
          rw [← h2.1, ih rest1 rest2 mm1 mm2 hrest1 hrest2]

/-- The committed access ACL after `shiftCore` (outside dry-run) is the
ACL-phase rewrite result whenever one was produced; when nothing was
modified the rewrite result coincides with the input. -/
theorem shiftCore_entry_acl (path : String) (e : FsEntry)
    (opts : ShifterOptions) (stats : ShifterStats) (nu ng : Int)
    (a : AclPhaseRes) (A1 : List AclEntry)
    (hdry : opts.dry_run = false)
    (hA : a.acl = some A1)
    (hnil : a.modified_acl_entries = [] → A1 = e.acl) :
    (shiftCore path e opts stats nu ng a).entry.acl = A1 := by
  simp only [shiftCore]
  split
  next hskip =>
    have hm : a.modified_acl_entries = [] := by
      rcases hskip with ⟨_, _, hm1, _⟩
      cases hml : a.modified_acl_entries with
      | nil => rfl
      | cons x xs => exfalso; apply hm1; rw [hml]; simp
    exact (hnil hm).symm
  · rw [hdry]
    simp only [Bool.false_eq_true, if_false]
    unfold commitPhase
    rw [(applyDefaultAclStep_frame path _ _ _).2.2.1]
    by_cases hM : a.modified_acl_entries = []
    · rw [hM]
      simp only [List.length_nil, gt_iff_lt, Nat.lt_irrefl, decide_False]
      rw [applyAclStep_false, (chownStep_acl path e e.st_uid e.st_gid nu ng).1]
      exact (hnil hM).symm
    · rw [show decide (a.modified_acl_entries.length > 0) = true by
        simp [List.length_pos, hM]]
      rw [hA, applyAclStep_true_some]

/-- When the ACL phase modified nothing in the access ACL, the committed
entry keeps its access ACL. -/
theorem shiftCore_entry_acl_nil (path : String) (e : FsEntry)
    (opts : ShifterOptions) (stats : ShifterStats) (nu ng : Int)
    (a : AclPhaseRes)
    (hdry : opts.dry_run = false)
    (hM : a.modified_acl_entries = []) :
    (shiftCore path e opts stats nu ng a).entry.acl = e.acl := by
  simp only [shiftCore]
  split
  · rfl
  · rw [hdry]
    simp only [Bool.false_eq_true, if_false]
    unfold commitPhase
    rw [(applyDefaultAclStep_frame path _ _ _).2.2.1]
    rw [hM]
    simp only [List.length_nil, gt_iff_lt, Nat.lt_irrefl, decide_False]
    rw [applyAclStep_false, (chownStep_acl path e e.st_uid e.st_gid nu ng).1]

/-- The committed default ACL after `shiftCore` (outside dry-run) is the
default rewrite result whenever one was produced. -/
theorem shiftCore_entry_dacl (path : String) (e : FsEntry)
    (opts : ShifterOptions) (stats : ShifterStats) (nu ng : Int)
    (a : AclPhaseRes) (D1 : List AclEntry)
    (hdry : opts.dry_run = false)
    (hD : a.default_acl = some D1)
    (hnil : a.modified_default_acl_entries = [] → D1 = e.default_acl) :
    (shiftCore path e opts stats nu ng a).entry.default_acl = D1 := by
  simp only [shiftCore]
  split
  next hskip =>
    have hm : a.modified_default_acl_entries = [] := by
      rcases hskip with ⟨_, _, _, hm1⟩
      cases hml : a.modified_default_acl_entries with
      | nil => rfl
      | cons x xs => exfalso; apply hm1; rw [hml]; simp
    exact (hnil hm).symm
  · rw [hdry]
    simp only [Bool.false_eq_true, if_false]
    unfold commitPhase
    by_cases hDM : a.modified_default_acl_entries = []
    · rw [hDM]
      simp only [List.length_nil, gt_iff_lt, Nat.lt_irrefl, decide_False]
      rw [applyDefaultAclStep_false]
      rw [(applyAclStep_frame path _ _ _).2.2.1,
        (chownStep_acl path e e.st_uid e.st_gid nu ng).2]
      exact (hnil hDM).symm
    · rw [show decide (a.modified_default_acl_entries.length > 0) = true by
        simp [List.length_pos, hDM]]
      rw [hD, applyDefaultAclStep_true_some]

/-- When the ACL phase modified nothing in the default ACL, the committed
entry keeps its default ACL. -/
theorem shiftCore_entry_dacl_nil (path : String) (e : FsEntry)
    (opts : ShifterOptions) (stats : ShifterStats) (nu ng : Int)
    (a : AclPhaseRes)
    (hdry : opts.dry_run = false)
    (hDM : a.modified_default_acl_entries = []) :
    (shiftCore path e opts stats nu ng a).entry.default_acl =
      e.default_acl := by
  simp only [shiftCore]
  split
  · rfl
  · rw [hdry]
    simp only [Bool.false_eq_true, if_false]
    unfold commitPhase
    rw [hDM]
    simp only [List.length_nil, gt_iff_lt, Nat.lt_irrefl, decide_False]
    rw [applyDefaultAclStep_false]
    rw [(applyAclStep_frame path _ _ _).2.2.1,
      (chownStep_acl path e e.st_uid e.st_gid nu ng).2]

/-- ACL fields of the entry after a successful, non-excluded, non-dry
`shift`: if the ACL phase ran (ACL shifting enabled and not a symlink),
the committed access ACL is exactly the rewrite result, and likewise for
the default ACL of a directory; otherwise both ACL fields are untouched. -/
theorem shift_aclfield_result (sh : Shifter) (path : String) (e : FsEntry)
    (opts : ShifterOptions) (stats : ShifterStats) (r : ShiftResult)
    (hnx : sh.pathExcluded path = false)
    (hdry : opts.dry_run = false)
    (h : sh.shift path e opts stats = .ok r) :
    ((opts.shift_acl && !e.is_symlink) = false ∧
      r.entry.acl = e.acl ∧ r.entry.default_acl = e.default_acl) ∨
    ((opts.shift_acl && !e.is_symlink) = true ∧
      (∃ A1 M1, sh.shift_acl e.acl false = .ok (A1, M1) ∧ r.entry.acl = A1) ∧
      ((e.is_dir = false ∧ r.entry.default_acl = e.default_acl) ∨
       (e.is_dir = true ∧ ∃ D1 DM1,
         sh.shift_acl e.default_acl true = .ok (D1, DM1) ∧
         r.entry.default_acl = D1))) := by
  rcases shift_ok_inv sh path e opts stats r h with ⟨hex, _⟩ |
    ⟨_, nu, ng, a, hop, ha, hr⟩
  · rw [hex] at hnx; exact absurd hnx (by simp)
  · have hent : r.entry = (shiftCore path e opts stats nu ng a).entry := by
      rw [hr]
    unfold aclPhase at ha
    split at ha
    next hcond =>
      split at ha
      · exact absurd ha (by simp)
      next am ham =>
        obtain ⟨A1, M1⟩ := am
        split at ha
        next hdir =>
          split at ha
          · exact absurd ha (by simp)
          next dm hdm =>
            obtain ⟨D1, DM1⟩ := dm
            rw [Except.ok.injEq] at ha
            right
            refine ⟨hcond, ⟨A1, M1, ham, ?_⟩,
              Or.inr ⟨hdir, D1, DM1, hdm, ?_⟩⟩
            · rw [hent]
              exact shiftCore_entry_acl path e opts stats nu ng a A1 hdry
                (by rw [← ha])
                (fun hm => shiftAclGo_mods_nil sh _ e.acl A1
                  (by rw [← ha] at hm; simp only at hm; rw [← hm]; exact ham))
            · rw [hent]
              exact shiftCore_entry_dacl path e opts stats nu ng a D1 hdry
                (by rw [← ha])
                (fun hm => shiftAclGo_mods_nil sh _ e.default_acl D1
                  (by rw [← ha] at hm; simp only at hm; rw [← hm]; exact hdm))
        next hdir =>
          rw [Except.ok.injEq] at ha
          right
          refine ⟨hcond, ⟨A1, M1, ham, ?_⟩, Or.inl ⟨by simpa using hdir, ?_⟩⟩
          · rw [hent]
            exact shiftCore_entry_acl path e opts stats nu ng a A1 hdry
              (by rw [← ha])
              (fun hm => shiftAclGo_mods_nil sh _ e.acl A1
                (by rw [← ha] at hm; simp only at hm; rw [← hm]; exact ham))
          · rw [hent]
            exact shiftCore_entry_dacl_nil path e opts stats nu ng a hdry
              (by rw [← ha])
    next hcond =>
      rw [Except.ok.injEq] at ha
      left
      refine ⟨by simpa using hcond, ?_, ?_⟩
      · rw [hent]
        exact shiftCore_entry_acl_nil path e opts stats nu ng a hdry
          (by rw [← ha])
      · rw [hent]
        exact shiftCore_entry_dacl_nil path e opts stats nu ng a hdry
          (by rw [← ha])

/-- Per-entry round trip: shifting an entry with offsets `uo:go` and no
exclusions, then shifting the committed result with offsets `-uo:-go`
(same mode, not a dry run), restores the entry exactly, provided both
shifts succeed. -/
theorem shift_roundtrip (uo go : Int) (opts : ShifterOptions) (path : String)
    (e : FsEntry) (s1 s2 : ShifterStats) (r1 r2 : ShiftResult)
    (hdry : opts.dry_run = false)
    (h1 : (Shifter.mk uo go [] [] []).shift path e opts s1 = .ok r1)
    (h2 : (Shifter.mk (-uo) (-go) [] [] []).shift path r1.entry opts s2 =
      .ok r2) :
    r2.entry = e := by
  have hnx1 : (Shifter.mk uo go [] [] []).pathExcluded path = false := by
    simp [Shifter.pathExcluded]
  have hnx2 : (Shifter.mk (-uo) (-go) [] [] []).pathExcluded path = false := by
    simp [Shifter.pathExcluded]
  have hkind1 := shift_preserves_kind _ _ _ _ _ _ h1
  have hkind2 := shift_preserves_kind _ _ _ _ _ _ h2
  have howner : r2.entry.st_uid = e.st_uid ∧ r2.entry.st_gid = e.st_gid := by
    by_cases hown : opts.shift_owner = true
    · obtain ⟨nu1, ng1, hnu1, hng1, hu1, hg1⟩ :=
        shift_owner_result _ _ _ _ _ _ hnx1 hown hdry h1
      obtain ⟨nu2, ng2, hnu2, hng2, hu2, hg2⟩ :=
        shift_owner_result _ _ _ _ _ _ hnx2 hown hdry h2
      have hb1 := new_uid_empty uo go e.st_uid nu1 hnu1
      have hbg1 := new_gid_empty uo go e.st_gid ng1 hng1
      have hru : r1.entry.st_uid = nu1 := by
        rw [hu1, if_neg (show ¬nu1 = -1 by omega)]
      have hrg : r1.entry.st_gid = ng1 := by
        rw [hg1, if_neg (show ¬ng1 = -1 by omega)]
      have hb2 := new_uid_empty (-uo) (-go) r1.entry.st_uid nu2 hnu2
      have hbg2 := new_gid_empty (-uo) (-go) r1.entry.st_gid ng2 hng2
      constructor
      · rw [hu2, if_neg (show ¬nu2 = -1 by omega)]; omega
      · rw [hg2, if_neg (show ¬ng2 = -1 by omega)]; omega
    · have hownf : opts.shift_owner = false := by
        revert hown; cases opts.shift_owner <;> simp
      have p1 := shift_noowner_result _ _ _ _ _ _ hnx1 hownf h1
      have p2 := shift_noowner_result _ _ _ _ _ _ hnx2 hownf h2
      exact ⟨p2.1.trans p1.1, p2.2.trans p1.2⟩
  have hacl : r2.entry.acl = e.acl ∧
      r2.entry.default_acl = e.default_acl := by
    rcases shift_aclfield_result _ _ _ _ _ _ hnx1 hdry h1 with
      ⟨hflag1, ha1, hd1⟩ | ⟨hflag1, ⟨A1, M1, hA1, hacl1⟩, hdef1⟩
    · rcases shift_aclfield_result _ _ _ _ _ _ hnx2 hdry h2 with
        ⟨hflag2, ha2, hd2⟩ | ⟨hflag2, _, _⟩
      · exact ⟨ha2.trans ha1, hd2.trans hd1⟩
      · rw [hkind1.2] at hflag2
        rw [hflag2] at hflag1
        exact absurd hflag1 (by simp)
    · rcases shift_aclfield_result _ _ _ _ _ _ hnx2 hdry h2 with
        ⟨hflag2, _, _⟩ | ⟨hflag2, ⟨A2, M2, hA2, hacl2⟩, hdef2⟩
      · rw [hkind1.2] at hflag2
        rw [hflag1] at hflag2
        exact absurd hflag2 (by simp)
      · rw [hacl1] at hA2
        have hA2e : A2 = e.acl :=
          shiftAclGo_roundtrip uo go "" "" e.acl A1 A2 M1 M2 hA1 hA2
        refine ⟨hacl2.trans hA2e, ?_⟩
        rcases hdef1 with ⟨hdir1, hd1⟩ | ⟨hdir1, D1, DM1, hD1, hdacl1⟩
        · rcases hdef2 with ⟨hdir2, hd2⟩ | ⟨hdir2, _, _, _, _⟩
          · exact hd2.trans hd1
          · rw [hkind1.1] at hdir2
            rw [hdir1] at hdir2
            exact absurd hdir2 (by simp)
        · rcases hdef2 with ⟨hdir2, _⟩ | ⟨hdir2, D2, DM2, hD2, hdacl2⟩
          · rw [hkind1.1] at hdir2
            rw [hdir1] at hdir2
            exact absurd hdir2 (by simp)
          · rw [hdacl1] at hD2
            have hD2e : D2 = e.default_acl :=
              shiftAclGo_roundtrip uo go "d:" "d:" e.default_acl D1 D2 DM1 DM2
                hD1 hD2
            exact hdacl2.trans hD2e
  have heta : r2.entry = ⟨r2.entry.is_dir, r2.entry.is_symlink,
      r2.entry.st_uid, r2.entry.st_gid, r2.entry.acl,
      r2.entry.default_acl⟩ := rfl
  rw [heta, hkind2.1, hkind1.1, hkind2.2, hkind1.2, howner.1, howner.2,
    hacl.1, hacl.2]

/-- The walking loop never touches the filesystem outside the paths it
processes. -/
theorem runGo_frame (sh : Shifter) (opts : ShifterOptions) :
    ∀ (paths : List String) (fs : String → FsEntry) (stats : ShifterStats)
      (st : ShifterStats) (g : String → FsEntry),
      sh.runGo paths opts fs stats = .ok (st, g) →
      ∀ q, q ∉ paths → g q = fs q := by
  intro paths
  induction paths with
  | nil =>
    intro fs stats st g h q hq
    unfold Shifter.runGo at h
    rw [Except.ok.injEq, Prod.mk.injEq] at h
    rw [← h.2]
  | cons p rest ih =>
    intro fs stats st g h q hq
    unfold Shifter.runGo at h
    split at h
    · exact absurd h (by simp)
    next r hr =>
      have hq1 : q ∉ rest := fun hx => hq (List.mem_cons_of_mem p hx)
      have hq2 : q ≠ p := fun hx => hq (hx ▸ List.mem_cons_self p rest)
      have := ih _ _ _ _ h q hq1
      rw [this]
      simp [hq2]

/-- Walking the same duplicate-free path list with offsets `uo:go` and
then with `-uo:-go` (same mode, not dry) restores the filesystem at every
walked path, and leaves everything else as the second run found it. -/
theorem runGo_roundtrip (uo go : Int) (opts : ShifterOptions)
    (hdry : opts.dry_run = false) :
    ∀ (paths : List String) (fsA fsB : String → FsEntry)
      (s1 s2 st1 st2 : ShifterStats) (g1 g2 : String → FsEntry),
      paths.Nodup →
      (Shifter.mk uo go [] [] []).runGo paths opts fsA s1 = .ok (st1, g1) →
      (Shifter.mk (-uo) (-go) [] [] []).runGo paths opts fsB s2 =
        .ok (st2, g2) →
      (∀ p ∈ paths, fsB p = g1 p) →
      ∀ p, g2 p = (if p ∈ paths then fsA p else fsB p) := by
  intro paths
  induction paths with
  | nil =>
    intro fsA fsB s1 s2 st1 st2 g1 g2 hnd h1 h2 hag p
    unfold Shifter.runGo at h2
    rw [Except.ok.injEq, Prod.mk.injEq] at h2
    rw [← h2.2]
    simp
  | cons p rest ih =>
    intro fsA fsB s1 s2 st1 st2 g1 g2 hnd h1 h2 hag q
    have hpnotin : p ∉ rest := (List.nodup_cons.mp hnd).1
    have hndrest : rest.Nodup := (List.nodup_cons.mp hnd).2
    unfold Shifter.runGo at h1 h2
    split at h1
    · exact absurd h1 (by simp)
    next r1 hr1 =>
      split at h2
      · exact absurd h2 (by simp)
      next r2 hr2 =>
        have hg1p : g1 p = r1.entry := by
          have := runGo_frame _ opts rest _ _ _ _ h1 p hpnotin
          rw [this]
          simp
        have hfsBp : fsB p = r1.entry := by
          rw [hag p (List.mem_cons_self p rest), hg1p]
        rw [hfsBp] at hr2
        have hround : r2.entry = fsA p :=
          shift_roundtrip uo go opts p (fsA p) s1 s2 r1 r2 hdry hr1 hr2
        have hagrest : ∀ x ∈ rest,
            (fun y => if y = p then r2.entry else fsB y) x = g1 x := by
          intro x hx
          have hxp : x ≠ p := fun hh => hpnotin (hh ▸ hx)
          simp only [hxp, if_false]
          exact hag x (List.mem_cons_of_mem p hx)
        have hrec := ih _ _ _ _ _ _ _ _ hndrest h1 h2 hagrest q
        by_cases hq : q ∈ rest
        · rw [hrec]
          have hqp : q ≠ p := fun hh => hpnotin (hh ▸ hq)
          simp [hq, hqp, List.mem_cons]
        · rw [hrec]
          simp only [hq, if_false]
          by_cases hqp : q = p
          · rw [hqp]
            simp only [if_pos rfl, List.mem_cons, true_or, if_true]
            exact hround
          · simp [hqp, hq, List.mem_cons]

/-- C7: running the engine over a tree with offsets `uo:go` and empty
exclusion sets, then running it over the result with offsets `-uo:-go`
(same mode configuration, real runs), restores every entry — in
particular every owner identifier and every named-user / named-group ACL
qualifier — exactly, provided both runs succeed (a run fails precisely
when some identifier would leave `[0, 2^32)`). The walked paths of a real
tree are pairwise distinct, which is the stated hypothesis. -/
theorem C7_round_trip (uo go : Int) (path : String) (walk : List WalkTriple)
    (fs : String → FsEntry) (opts : ShifterOptions)
    (s1 s2 : ShifterStats) (fs1 fs2 : String → FsEntry)
    (hdry : opts.dry_run = false)
    (hnd : (walkPaths path walk).Nodup)
    (h1 : (Shifter.mk uo go [] [] []).run path walk fs opts = .ok (s1, fs1))
    (h2 : (Shifter.mk (-uo) (-go) [] [] []).run path walk fs1 opts =
      .ok (s2, fs2)) :
    ∀ p, fs2 p = fs p := by
  intro p
  unfold Shifter.run at h1 h2
  have h := runGo_roundtrip uo go opts hdry (walkPaths path walk) fs fs1
    {} {} s1 s2 fs1 fs2 hnd h1 h2 (fun q hq => rfl) p
  by_cases hp : p ∈ walkPaths path walk
  · rw [h, if_pos hp]
  · rw [h, if_neg hp]
    exact runGo_frame _ opts (walkPaths path walk) fs {} s1 fs1 h1 p hp

/-- Filesystem after the witness round trip: the file at `./f` is back to
`1000:1000`. -/
def fs2W : String → FsEntry := fun q =>
  if q = "./f" then ⟨false, false, 1000, 1000, [], []⟩ else gW10 q

/-- Witness for C7 on a concrete one-file tree: shifting by
`100000:100000` and then by `-100000:-100000` restores the original
owner at the walked path (and everywhere else). -/
theorem C7_round_trip_witness :
    ShifterOptions.dry_run {} = false ∧
    (walkPaths "." [⟨".", [], ["f"]⟩]).Nodup ∧
    (Shifter.mk 100000 100000 [] [] []).run "." [⟨".", [], ["f"]⟩] fsW10 {} =
      .ok (⟨1, 1, 1, 0, 0, 0⟩, gW10) ∧
    (Shifter.mk (-100000) (-100000) [] [] []).run "." [⟨".", [], ["f"]⟩]
      gW10 {} = .ok (⟨1, 1, 1, 0, 0, 0⟩, fs2W) ∧
    fs2W "./f" = fsW10 "./f" ∧ fs2W "elsewhere" = fsW10 "elsewhere" := by
  refine ⟨rfl, by simp [walkPaths, pathJoin], by rfl, by rfl, ?_, ?_⟩
  · exact C7_round_trip 100000 100000 "." [⟨".", [], ["f"]⟩] fsW10 {}
      ⟨1, 1, 1, 0, 0, 0⟩ ⟨1, 1, 1, 0, 0, 0⟩ gW10 fs2W rfl
      (by simp [walkPaths, pathJoin]) (by rfl) (by rfl) "./f"
  · exact C7_round_trip 100000 100000 "." [⟨".", [], ["f"]⟩] fsW10 {}
      ⟨1, 1, 1, 0, 0, 0⟩ ⟨1, 1, 1, 0, 0, 0⟩ gW10 fs2W rfl
      (by simp [walkPaths, pathJoin]) (by rfl) (by rfl) "elsewhere"
